import Mathlib

set_option linter.unusedVariables false
set_option maxHeartbeats 1000000
set_option maxRecDepth 100000

namespace GoMisc

/-! Shallow embedding of `nokia/nbf/message.go` from the go-misc repository.
Byte buffers and Go strings are modelled as `List Nat` (each element a byte
value), Go `uintN` arithmetic is `Nat` arithmetic with explicit reductions
modulo `2 ^ N` where overflow is possible, and fallible control flow is
`Except Err`.  Go slice expressions are modelled with capacity equal to
length, which is how every slice in this file is produced. -/

/-- Outcome classification for the embedded Go code: `truncated` and
`decodeErr` are errors the Go code builds and returns to its caller, while
`oob` (an index or slice expression out of range) and `fatal` (an explicit
Go panic call) model run-time aborts that crash the process instead of
returning a value. -/
inductive Err where
  | oob
  | fatal
  | truncated
  | decodeErr
deriving DecidableEq

/-- Value of one hexadecimal digit byte, exactly the digit classes accepted
by Go `strconv.ParseUint` with base 16. -/
def hexDigitVal (c : Nat) : Option Nat :=
  if 48 ≤ c ∧ c ≤ 57 then some (c - 48)
  else if 97 ≤ c ∧ c ≤ 102 then some (c - 87)
  else if 65 ≤ c ∧ c ≤ 70 then some (c - 55)
  else none

/-- Digit loop of Go `strconv.ParseUint(s, 16, 32)`: left-to-right
accumulation with the 32-bit range check. -/
def parseHexDigits : List Nat → Nat → Except Err Nat
  | [], acc => .ok acc
  | c :: rest, acc =>
    match hexDigitVal c with
    | some d =>
      if 16 * acc + d ≤ 4294967295 then parseHexDigits rest (16 * acc + d)
      else .error .decodeErr
    | none => .error .decodeErr

/-- Embedding of Go `strconv.ParseUint(s, 16, 32)` applied to a byte string:
an empty string or any non-hex byte is a returned parse error. -/
def parseUint32Hex (s : List Nat) : Except Err Nat :=
  if s.isEmpty then .error .decodeErr else parseHexDigits s 0

/-- Embedding of `getUint32` (message.go lines 70-73).  The Go slice
expression `s[:8]` panics when the string is shorter than 8 bytes, modelled
as `Err.oob`; a failed hex parse is the returned error `Err.decodeErr`. -/
def getUint32 (s : List Nat) : Except Err (List Nat × Nat) :=
  if 8 ≤ s.length then
    match parseUint32Hex (s.take 8) with
    | .ok n => .ok (s.drop 8, n)
    | .error e => .error e
  else .error .oob

/-- Filename information of struct `Message` (message.go lines 14-26),
restricted to the fields assigned by `ParseFilename`; `Peer` holds the 12
raw bytes copied from the filename. -/
structure Message where
  Seq : Nat := 0
  Timestamp : Nat := 0
  MultipartSeq : Nat := 0
  Flags : Nat := 0
  PartNo : Nat := 0
  PartTotal : Nat := 0
  Peer : List Nat := []
  Pad : Nat := 0
deriving DecidableEq

/-- Embedding of `(*Message).ParseFilename` (message.go lines 40-68).  Every
fixed-width consumption step mirrors the corresponding Go slice or index
expression: `s[8:]`, `s[25:]`, `s[:12]` and `s[7]` panic when the remaining
string is too short, modelled as `Err.oob`. -/
def ParseFilename (s0 : List Nat) : Except Err Message :=
  match getUint32 s0 with
  | .error e => .error e
  | .ok (s1, seq) =>
    match getUint32 s1 with
    | .error e => .error e
    | .ok (s2, ts) =>
      match getUint32 s2 with
      | .error e => .error e
      | .ok (s3, n) =>
        if 8 ≤ s3.length then
          match getUint32 (s3.drop 8) with
          | .error e => .error e
          | .ok (s5, n2) =>
            if 25 ≤ s5.length then
              let s6 := s5.drop 25
              if 12 ≤ s6.length then
                let s7 := s6.drop 12
                if 7 < s7.length then
                  .ok { Seq := seq, Timestamp := ts,
                        MultipartSeq := (n >>> 16) % 65536, Flags := n % 65536,
                        PartNo := (n2 >>> 12) % 256, PartTotal := (n2 >>> 20) % 256,
                        Peer := s6.take 12, Pad := s7.getD 7 0 }
                else .error .oob
              else .error .oob
            else .error .oob
        else .error .oob

/-- Embedding of Go `time.Unix(sec, nsec)`: an instant represented as
nanoseconds since the Unix reference epoch. -/
def timeUnix (sec nsec : Int) : Int := sec * 1000000000 + nsec

/-- Embedding of Go `Time.Add`: shift an instant by a duration counted in
nanoseconds. -/
def timeAdd (t d : Int) : Int := t + d

/-- Embedding of `DosTime` (message.go lines 80-85): `time.Unix(int64(stamp), 0)`
shifted by the duration `3652 * 24 * time.Hour`, with `time.Hour` equal to
3600000000000 nanoseconds. -/
def DosTime (stamp : Nat) : Int :=
  timeAdd (timeUnix (stamp : Int) 0) (3652 * 24 * 3600000000000)

/-- Arguments of the Go `time.Date` call performed by `parseDateTime`:
calendar fields together with the fixed-zone offset in seconds east of UTC
passed to `time.FixedZone`. -/
structure DateTime where
  year : Nat := 0
  month : Nat := 0
  day : Nat := 0
  hour : Nat := 0
  minute : Nat := 0
  second : Nat := 0
  nsec : Nat := 0
  zoneOffsetSeconds : Nat := 0
deriving DecidableEq

/-- Embedding of `parseDateTime` (message.go lines 258-268): all seven
semi-octet pairs, the timezone pair included, are decoded by the same loop
as `low * 10 + high`; indexing `b[i]` for `i < 7` panics on a shorter slice,
modelled as `Err.oob`. -/
def parseDateTime (b : List Nat) : Except Err DateTime :=
  if 7 ≤ b.length then
    let dt := fun i => (b.getD i 0 &&& 0xf) * 10 + (b.getD i 0 >>> 4)
    .ok { year := 2000 + dt 0, month := dt 1, day := dt 2, hour := dt 3,
          minute := dt 4, second := dt 5, nsec := 0,
          zoneOffsetSeconds := dt 6 * 3600 / 4 }
  else .error .oob

/-- Embedding of `decodeBCD` (message.go lines 270-281): ASCII digit codes,
low nibble first, stopping immediately after the low nibble of a byte whose
high nibble is the fill value 0xf. -/
def decodeBCD : List Nat → List Nat
  | [] => []
  | c :: rest =>
    if c >>> 4 = 0xf then [48 + (c &&& 0xf)]
    else (48 + (c &&& 0xf)) :: (48 + (c >>> 4)) :: decodeBCD rest

/-- Inner `for buflen >= 7` drain loop of `unpack7bit`, written with an
explicit fuel argument; fuel equal to `buflen` always suffices because every
iteration removes 7 from `buflen`.  Returns the emitted septets together
with the remaining accumulator state. -/
def drain7go : Nat → Nat → Nat → List Nat × Nat × Nat
  | 0, buf, buflen => ([], buf, buflen)
  | fuel + 1, buf, buflen =>
    if 7 ≤ buflen then
      let r := drain7go fuel (buf >>> 7) (buflen - 7)
      ((buf &&& 0x7f) :: r.1, r.2)
    else ([], buf, buflen)

/-- Drain loop of `unpack7bit` started with sufficient fuel. -/
def drain7 (buf buflen : Nat) : List Nat × Nat × Nat := drain7go buflen buf buflen

/-- Outer loop of `unpack7bit` (message.go lines 283-300): the 16-bit
accumulator receives each input byte at bit offset `buflen` (uint16
arithmetic, hence the reduction modulo 65536), then septets are drained
while at least 7 bits are pending. -/
def unpack7bitGo : List Nat → Nat → Nat → List Nat
  | [], _, _ => []
  | c :: s, buf, buflen =>
    let r := drain7 ((buf ||| (c <<< buflen)) % 65536) (buflen + 8)
    r.1 ++ unpack7bitGo s r.2.1 r.2.2

/-- Embedding of `unpack7bit` (message.go lines 283-300). -/
def unpack7bit (s : List Nat) : List Nat := unpack7bitGo s 0 0

/-- Modelled from the spec: the repository has no 7-bit packer under src/
(only `unpack7bit` exists); spec section 8 describes packing a septet
sequence of length L into `ceil(L * 7 / 8)` bytes in GSM 7-bit packed form.
Septets are appended at the current bit offset of a least-significant-first
bit stream, full bytes are emitted as they complete, and a final
zero-padded partial byte is emitted when bits remain. -/
def pack7bitGo : List Nat → Nat → Nat → List Nat
  | [], buf, buflen => if 0 < buflen then [buf] else []
  | c :: t, buf, buflen =>
    let buf1 := buf ||| (c <<< buflen)
    if 8 ≤ buflen + 7 then (buf1 &&& 0xff) :: pack7bitGo t (buf1 >>> 8) (buflen + 7 - 8)
    else pack7bitGo t buf1 (buflen + 7)

/-- Modelled from the spec: GSM 7-bit packer entry point (see `pack7bitGo`). -/
def pack7bit (t : List Nat) : List Nat := pack7bitGo t 0 0

/-- GSM 03.38 basic character set table `basicSMSset` (message.go lines
313-345) as Unicode code points; entry 0x1b is the escape sentinel that the
Go source writes as the rune constant -1. -/
def basicSMSset : List Int :=
  [64, 163, 36, 165, 232, 233, 249, 236, 242, 199, 10, 216, 248, 13, 197, 229,
   916, 95, 934, 915, 923, 937, 928, 936, 931, 920, 926, -1, 198, 230, 223, 201,
   32, 33, 34, 35, 164, 37, 38, 39, 40, 41, 42, 43, 44, 45, 46, 47,
   48, 49, 50, 51, 52, 53, 54, 55, 56, 57, 58, 59, 60, 61, 62, 63,
   161, 65, 66, 67, 68, 69, 70, 71, 72, 73, 74, 75, 76, 77, 78, 79,
   80, 81, 82, 83, 84, 85, 86, 87, 88, 89, 90, 196, 214, 209, 220, 167,
   191, 97, 98, 99, 100, 101, 102, 103, 104, 105, 106, 107, 108, 109, 110, 111,
   112, 113, 114, 115, 116, 117, 118, 119, 120, 121, 122, 228, 246, 241, 252, 224]

/-- Embedding of `translateSMS` (message.go lines 304-310): one table lookup
per input byte; Go indexing `charset[b]` into the 128-entry array panics
when `b` is at least 128, modelled as `Err.oob`. -/
def translateSMS (s : List Nat) (charset : List Int) : Except Err (List Int) :=
  match s with
  | [] => .ok []
  | b :: rest =>
    match charset[b]? with
    | some r =>
      match translateSMS rest charset with
      | .ok rs => .ok (r :: rs)
      | .error e => .error e
    | none => .error .oob

/-- Contents of a parsed SMS-DELIVER message, struct `deliverMessage`
(message.go lines 166-181).  Field defaults are the Go zero values, so `{}`
is the zero `deliverMessage`.  `FromAddr` keeps the ASCII digit codes
produced by `decodeBCD`; `Protocol` mirrors the Go field of the same name,
which `parseDeliverMessage` never assigns. -/
structure deliverMessage where
  MsgType : Nat := 0
  MoreMsg : Bool := false
  FromAddr : List Nat := []
  Protocol : Nat := 0
  Compressed : Bool := false
  Unicode : Bool := false
  SMSCStamp : DateTime := {}
  RawData : List Nat := []
  Concat : Bool := false
  Ref : Nat := 0
  Part : Nat := 0
  NParts : Nat := 0
deriving DecidableEq

/-- Embedding of `parseDeliverMessage` (message.go lines 195-254).  The
returned pair is the parsed message and the number of consumed bytes.
Every Go index or slice expression is preceded by the bound it checks at
run time; a violated bound is the panic outcome `Err.oob`.  The slice
`p[3 : 3+(nbLen+1)/2]` is `(s.take addrEnd).drop 3`, the slice `p[2:9]`
handed to `parseDateTime` is `(p.take 9).drop 2`, and so on. -/
def parseDeliverMessage (s : List Nat) : Except Err (deliverMessage × Nat) :=
  if 2 ≤ s.length then
    let nbLen := s.getD 1 0
    let addrEnd := 3 + (nbLen + 1) / 2
    if addrEnd ≤ s.length then
      let msg1 : deliverMessage :=
        { MsgType := s.getD 0 0 &&& 3
          MoreMsg := s.getD 0 0 &&& 4 == 0
          FromAddr := decodeBCD ((s.take addrEnd).drop 3) }
      let p := s.drop addrEnd
      if 9 ≤ p.length then
        let format := p.getD 1 0
        match parseDateTime ((p.take 9).drop 2) with
        | .error e => .error e
        | .ok stamp =>
          let msg2 := { msg1 with
                        Compressed := format &&& 0x20 != 0
                        Unicode := format &&& 8 != 0
                        SMSCStamp := stamp }
          let size2 := addrEnd + 9
          let p2 := s.drop size2
          if 1 ≤ p2.length then
            let length := p2.getD 0 0
            let payload : Except Err (List Nat × Nat) :=
              if msg2.Unicode then
                if length + 1 ≤ p2.length then
                  .ok ((p2.take (length + 1)).drop 1, size2 + length + 1)
                else .error .oob
              else
                let packedLen := length - length / 8
                if 1 + packedLen ≤ p2.length then
                  let unpacked := unpack7bit ((p2.take (1 + packedLen)).drop 1)
                  if length ≤ unpacked.length then
                    .ok (unpacked.take length, size2 + packedLen + 1)
                  else .error .oob
                else .error .oob
            match payload with
            | .error e => .error e
            | .ok (rawData, size3) =>
              let ud := p2.drop 1
              if 6 ≤ ud.length ∧ ud.getD 0 0 = 5 ∧ ud.getD 1 0 = 0 ∧ ud.getD 2 0 = 3 then
                let msg3 := { msg2 with
                              Concat := true
                              Part := ud.getD 5 0
                              NParts := ud.getD 4 0
                              Ref := ud.getD 3 0 }
                if msg3.Unicode then
                  if 6 ≤ rawData.length then
                    .ok ({ msg3 with RawData := rawData.drop 6 }, size3)
                  else .error .oob
                else
                  if 7 ≤ rawData.length then
                    .ok ({ msg3 with RawData := rawData.drop 7 }, size3)
                  else .error .oob
              else if 7 ≤ ud.length ∧ ud.getD 0 0 = 6 ∧ ud.getD 1 0 = 8 ∧ ud.getD 2 0 = 4 then
                let msg3 := { msg2 with
                              Concat := true
                              Part := ud.getD 6 0
                              NParts := ud.getD 5 0
                              Ref := (ud.getD 3 0 <<< 8) ||| ud.getD 4 0 }
                if msg3.Unicode then
                  if 7 ≤ rawData.length then
                    .ok ({ msg3 with RawData := rawData.drop 7 }, size3)
                  else .error .oob
                else
                  if 8 ≤ rawData.length then
                    .ok ({ msg3 with RawData := rawData.drop 8 }, size3)
                  else .error .oob
              else .ok ({ msg2 with RawData := rawData }, size3)
          else .error .oob
      else .error .oob
    else .error .oob
  else .error .oob

/-- Embedding of Go `utf16.Decode`: big-endian independence of byte order is
already resolved, so the input is a list of 16-bit code units.  Well formed
surrogate pairs are combined, lone surrogates become the replacement
character 0xFFFD, other units pass through. -/
def utf16Decode : List Nat → List Nat
  | [] => []
  | [u] => if 0xD800 ≤ u ∧ u < 0xE000 then [0xFFFD] else [u]
  | u :: v :: rest =>
    if 0xD800 ≤ u ∧ u < 0xDC00 ∧ 0xDC00 ≤ v ∧ v < 0xE000 then
      (0x10000 + (u - 0xD800) * 0x400 + (v - 0xDC00)) :: utf16Decode rest
    else if 0xD800 ≤ u ∧ u < 0xE000 then 0xFFFD :: utf16Decode (v :: rest)
    else u :: utf16Decode (v :: rest)

/-- Peer-name scan of `parseMessage` (message.go lines 114-118), operating
on the buffer already advanced to offset 0x5e: read big-endian 16-bit code
units until a zero unit; reading past the end of the buffer is the Go index
panic, modelled as `Err.oob`. -/
def scanUCS2core : List Nat → Except Err (List Nat)
  | b0 :: b1 :: rest =>
    if b0 ||| b1 = 0 then .ok []
    else
      match scanUCS2core rest with
      | .ok units => .ok (((b0 <<< 8) ||| b1) :: units)
      | .error e => .error e
  | _ => .error .oob

/-- Struct `rawMessage` (message.go lines 88-93): decoded peer name, decoded
trailing text, and the parsed deliver message.  `Peer` and `Text` are kept
as lists of Unicode code points. -/
structure rawMessage where
  Peer : List Nat := []
  Text : List Nat := []
  Msg : deliverMessage := {}
deriving DecidableEq

/-- Trailing-block handling of `parseMessage` (message.go lines 139-159),
applied to the bytes remaining after the TPDU: an empty remainder succeeds
with empty text, fewer than 72 bytes is the returned error
`Err.truncated`, otherwise 65 bytes are skipped, the byte at offset 5 of
the remainder is the text length, 6 bytes are skipped in total and
`length / 2` big-endian UCS-2 code units are decoded as `Text`. -/
def parseMessageTail (peer : List Nat) (msg : deliverMessage) (pdu : List Nat) :
    Except Err rawMessage :=
  if pdu.length = 0 then .ok { Peer := peer, Msg := msg }
  else if pdu.length < 72 then .error .truncated
  else
    let pdu1 := pdu.drop 65
    let length := pdu1.getD 5 0
    let pdu2 := pdu1.drop 6
    if 2 * (length / 2) ≤ pdu2.length then
      .ok { Peer := peer,
            Text := (List.range (length / 2)).map
              (fun i => (pdu2.getD (2 * i) 0 <<< 8) ||| pdu2.getD (2 * i + 1) 0),
            Msg := msg }
    else .error .oob

/-- Embedding of `parseMessage` (message.go lines 113-159): scan the peer
name at fixed offset 0x5e, dispatch on the low 2 bits of the first PDU byte
at fixed offset 0xb0 (0 parses an SMS-DELIVER TPDU and advances past it,
1 and 2 leave the buffer in place, 3 is the explicit Go panic, modelled as
`Err.fatal`), then handle the remaining bytes with `parseMessageTail`. -/
def parseMessage (s : List Nat) : Except Err rawMessage :=
  match scanUCS2core (s.drop 0x5e) with
  | .error e => .error e
  | .ok units =>
    let peer := utf16Decode units
    if 0xb0 ≤ s.length then
      let pdu := s.drop 0xb0
      if 1 ≤ pdu.length then
        match pdu.getD 0 0 &&& 3 with
        | 0 =>
          match parseDeliverMessage pdu with
          | .error e => .error e
          | .ok (msg, n) =>
            if n ≤ pdu.length then parseMessageTail peer msg (pdu.drop n)
            else .error .oob
        | 1 => parseMessageTail peer {} pdu
        | 2 => parseMessageTail peer {} pdu
        | _ => .error .fatal
      else .error .oob
    else .error .oob

/-- Little-endian digit expansion of a number with a fixed digit count, used
to state the bit-stream semantics of the 7-bit packer and unpacker. -/
def digitsB (B : Nat) : Nat → Nat → List Nat
  | 0, _ => []
  | k + 1, v => (v % B) :: digitsB B k (v / B)

/-- Little-endian radix-B value of a digit list. -/
def radixB (B : Nat) : List Nat → Nat
  | [] => 0
  | c :: t => c + B * radixB B t

/-! Arithmetic facts about bit manipulation and digit expansions, used to
characterise the 7-bit packer and unpacker. -/

theorem lor_shiftLeft_eq_add (x y n : Nat) (h : x < 2 ^ n) :
    x ||| (y <<< n) = x + y * 2 ^ n := by
  rw [Nat.shiftLeft_eq]
  apply Nat.eq_of_testBit_eq
  intro i
  rw [Nat.testBit_lor, Nat.add_comm x, Nat.mul_comm y, Nat.testBit_mul_pow_two_add _ h,
    Nat.testBit_mul_pow_two]
  rcases Nat.lt_or_ge i n with hi | hi
  · simp [hi, Nat.not_le.mpr hi]
  · have hx : x.testBit i = false :=
      Nat.testBit_lt_two_pow (lt_of_lt_of_le h (Nat.pow_le_pow_right (by omega) hi))
    simp [hx, hi, Nat.not_lt.mpr hi]

theorem and_127_eq (x : Nat) : x &&& 127 = x % 128 := by
  have h := Nat.and_pow_two_sub_one_eq_mod x 7
  norm_num at h
  exact h

theorem and_255_eq (x : Nat) : x &&& 255 = x % 256 := by
  have h := Nat.and_pow_two_sub_one_eq_mod x 8
  norm_num at h
  exact h

theorem shiftRight_7_eq (x : Nat) : x >>> 7 = x / 128 := by
  have h := Nat.shiftRight_eq_div_pow x 7
  norm_num at h
  exact h

theorem shiftRight_8_eq (x : Nat) : x >>> 8 = x / 256 := by
  have h := Nat.shiftRight_eq_div_pow x 8
  norm_num at h
  exact h

theorem digitsB_length (B k v : Nat) : (digitsB B k v).length = k := by
  induction k generalizing v with
  | zero => simp [digitsB]
  | succ k ih => simp [digitsB, ih]

theorem digitsB_lt (B k v : Nat) (hB : 0 < B) : ∀ x ∈ digitsB B k v, x < B := by
  induction k generalizing v with
  | zero => simp [digitsB]
  | succ k ih =>
    intro x hx
    simp only [digitsB, List.mem_cons] at hx
    rcases hx with h | h
    · exact h ▸ Nat.mod_lt _ hB
    · exact ih _ x h

theorem digitsB_add (B a b v : Nat) :
    digitsB B (a + b) v = digitsB B a v ++ digitsB B b (v / B ^ a) := by
  induction a generalizing v with
  | zero => simp [digitsB]
  | succ a ih =>
    have hc : a + 1 + b = (a + b) + 1 := by omega
    rw [hc]
    simp only [digitsB, List.cons_append, ih]
    rw [Nat.div_div_eq_div_mul, ← pow_succ']

theorem digitsB_mod (B k v m : Nat) :
    digitsB B k (v + m * B ^ k) = digitsB B k v := by
  rcases Nat.eq_zero_or_pos B with hB | hB
  · subst hB
    cases k with
    | zero => simp [digitsB]
    | succ k => simp [digitsB]
  · induction k generalizing v m with
    | zero => simp [digitsB]
    | succ k ih =>
      simp only [digitsB]
      have h1 : (v + m * B ^ (k + 1)) % B = v % B := by
        have : v + m * B ^ (k + 1) = v + m * B ^ k * B := by ring
        rw [this, Nat.add_mul_mod_self_right]
      have h2 : (v + m * B ^ (k + 1)) / B = v / B + m * B ^ k := by
        have : v + m * B ^ (k + 1) = v + m * B ^ k * B := by ring
        rw [this, Nat.add_mul_div_right _ _ hB]
      rw [h1, h2, ih]

theorem radixB_digitsB (B k v : Nat) (hB : 0 < B) :
    radixB B (digitsB B k v) = v % B ^ k := by
  induction k generalizing v with
  | zero => simp [digitsB, radixB, Nat.mod_one]
  | succ k ih =>
    simp only [digitsB, radixB, ih]
    rw [pow_succ', Nat.mod_mul]

theorem digitsB_radixB (B : Nat) (t : List Nat) (ht : ∀ x ∈ t, x < B) :
    digitsB B t.length (radixB B t) = t := by
  induction t with
  | nil => simp [digitsB, radixB]
  | cons c t ih =>
    have hc : c < B := ht c (by simp)
    have hB : 0 < B := by omega
    simp only [List.length_cons, digitsB, radixB]
    have h1 : (c + B * radixB B t) % B = c := by
      rw [Nat.mul_comm, Nat.add_mul_mod_self_right, Nat.mod_eq_of_lt hc]
    have h2 : (c + B * radixB B t) / B = radixB B t := by
      rw [Nat.add_mul_div_left _ _ hB, Nat.div_eq_of_lt hc, Nat.zero_add]
    rw [h1, h2, ih (fun x hx => ht x (by simp [hx]))]

theorem radixB_lt (B : Nat) (t : List Nat) (hB : 0 < B) (ht : ∀ x ∈ t, x < B) :
    radixB B t < B ^ t.length := by
  induction t with
  | nil => simp [radixB]
  | cons c t ih =>
    have hc : c < B := ht c (by simp)
    have hr : radixB B t < B ^ t.length := ih (fun x hx => ht x (by simp [hx]))
    simp only [radixB, List.length_cons, pow_succ']
    calc c + B * radixB B t < B + B * radixB B t := by omega
      _ = B * (radixB B t + 1) := by ring
      _ ≤ B * B ^ t.length := Nat.mul_le_mul_left _ (by omega)

theorem digitsB_take (B k a v : Nat) (h : a ≤ k) :
    (digitsB B k v).take a = digitsB B a v := by
  have hk : k = a + (k - a) := by omega
  rw [hk, digitsB_add]
  have hl := List.take_left (digitsB B a v) (digitsB B (k - a) (v / B ^ a))
  rw [digitsB_length] at hl
  exact hl

theorem drain7go_spec (fuel : Nat) : ∀ buf buflen, buflen ≤ fuel →
    drain7go fuel buf buflen =
      (digitsB 128 (buflen / 7) buf, buf >>> (7 * (buflen / 7)), buflen % 7) := by
  induction fuel with
  | zero =>
    intro buf buflen h
    have h0 : buflen = 0 := by omega
    subst h0
    simp [drain7go, digitsB]
  | succ fuel ih =>
    intro buf buflen h
    simp only [drain7go]
    by_cases h7 : 7 ≤ buflen
    · rw [if_pos h7, ih _ _ (by omega)]
      have hq : buflen / 7 = (buflen - 7) / 7 + 1 := by omega
      have hm : (buflen - 7) % 7 = buflen % 7 := by omega
      rw [hq, hm]
      have e1 : buf &&& 127 = buf % 128 := and_127_eq buf
      have e2 : buf >>> 7 = buf / 128 := shiftRight_7_eq buf
      have e3 : buf >>> 7 >>> (7 * ((buflen - 7) / 7)) = buf >>> (7 * ((buflen - 7) / 7 + 1)) := by
        rw [← Nat.shiftRight_add]
        congr 1
        ring
      simp only [digitsB, e3]
      rw [e1, e2]
    · rw [if_neg h7]
      have hq : buflen / 7 = 0 := by omega
      have hm : buflen % 7 = buflen := by omega
      rw [hq, hm]
      simp [digitsB]

theorem drain7_spec (buf buflen : Nat) :
    drain7 buf buflen =
      (digitsB 128 (buflen / 7) buf, buf >>> (7 * (buflen / 7)), buflen % 7) :=
  drain7go_spec buflen buf buflen (Nat.le_refl _)

theorem unpack7bitGo_spec (s : List Nat) : ∀ buf buflen : Nat,
    (∀ c ∈ s, c < 256) → buf < 2 ^ buflen → buflen ≤ 6 →
    unpack7bitGo s buf buflen =
      digitsB 128 ((buflen + 8 * s.length) / 7) (buf + radixB 256 s * 2 ^ buflen) := by
  induction s with
  | nil =>
    intro buf buflen hc hb hl
    have h0 : (buflen + 8 * 0) / 7 = 0 := by omega
    simp only [List.length_nil, h0, unpack7bitGo, radixB, digitsB]
  | cons c s ih =>
    intro buf buflen hc hb hl
    have hc0 : c < 256 := hc c (by simp)
    have hor : buf ||| (c <<< buflen) = buf + c * 2 ^ buflen :=
      lor_shiftLeft_eq_add _ _ _ hb
    have hpow : 2 ^ (buflen + 8) = 2 ^ buflen * 256 := by
      rw [pow_add]; norm_num
    have hlt : buf + c * 2 ^ buflen < 2 ^ (buflen + 8) := by
      rw [hpow]
      calc buf + c * 2 ^ buflen < 2 ^ buflen + c * 2 ^ buflen :=
            Nat.add_lt_add_right hb _
        _ = (1 + c) * 2 ^ buflen := by ring
        _ ≤ 256 * 2 ^ buflen := Nat.mul_le_mul_right _ (by omega)
        _ = 2 ^ buflen * 256 := by ring
    have hmod : (buf + c * 2 ^ buflen) % 65536 = buf + c * 2 ^ buflen := by
      apply Nat.mod_eq_of_lt
      calc buf + c * 2 ^ buflen < 2 ^ (buflen + 8) := hlt
        _ ≤ 2 ^ 14 := Nat.pow_le_pow_right (by omega) (by omega)
        _ < 65536 := by norm_num
    set buf1 := buf + c * 2 ^ buflen with hbuf1
    set q := (buflen + 8) / 7 with hqdef
    have hq7 : 7 * q ≤ buflen + 8 := by omega
    have hshift : buf1 >>> (7 * q) < 2 ^ ((buflen + 8) % 7) := by
      rw [Nat.shiftRight_eq_div_pow]
      rw [Nat.div_lt_iff_lt_mul (Nat.pos_pow_of_pos _ (by omega))]
      calc buf1 < 2 ^ (buflen + 8) := hlt
        _ = 2 ^ ((buflen + 8) % 7) * 2 ^ (7 * q) := by
            rw [← pow_add]
            congr 1
            omega
    simp only [unpack7bitGo]
    rw [hor, hmod, drain7_spec]
    rw [ih _ _ (fun x hx => hc x (by simp [hx])) hshift (by omega)]
    have hgoalcount : (buflen + 8 * (s.length + 1)) / 7 = q + ((buflen + 8) % 7 + 8 * s.length) / 7 := by
      omega
    rw [List.length_cons, hgoalcount, digitsB_add]
    have h128q : (128 : Nat) ^ q = 2 ^ (7 * q) := by
      rw [Nat.pow_mul]
    have hsplit : 2 ^ ((buflen + 8) % 7) * 2 ^ (7 * q) = 2 ^ buflen * 256 := by
      rw [← pow_add, show (buflen + 8) % 7 + 7 * q = buflen + 8 by omega, hpow]
    have hV : buf + radixB 256 (c :: s) * 2 ^ buflen =
        buf1 + (radixB 256 s * 2 ^ ((buflen + 8) % 7)) * 128 ^ q := by
      simp only [radixB, hbuf1, h128q]
      calc buf + (c + 256 * radixB 256 s) * 2 ^ buflen
          = buf + c * 2 ^ buflen + radixB 256 s * (2 ^ buflen * 256) := by ring
        _ = buf + c * 2 ^ buflen + radixB 256 s * (2 ^ ((buflen + 8) % 7) * 2 ^ (7 * q)) := by
            rw [hsplit]
        _ = buf + c * 2 ^ buflen + radixB 256 s * 2 ^ ((buflen + 8) % 7) * 2 ^ (7 * q) := by
            ring
    rw [hV, digitsB_mod]
    congr 1
    rw [Nat.add_mul_div_right _ _ (Nat.pos_pow_of_pos _ (by omega)),
      Nat.shiftRight_eq_div_pow, h128q]

theorem unpack7bit_spec (s : List Nat) (hc : ∀ c ∈ s, c < 256) :
    unpack7bit s = digitsB 128 (8 * s.length / 7) (radixB 256 s) := by
  have h := unpack7bitGo_spec s 0 0 hc (by norm_num) (by norm_num)
  simpa [unpack7bit] using h

theorem unpack7bit_length (s : List Nat) (hc : ∀ c ∈ s, c < 256) :
    (unpack7bit s).length = 8 * s.length / 7 := by
  rw [unpack7bit_spec s hc, digitsB_length]

theorem unpack7bit_mem_lt (s : List Nat) (hc : ∀ c ∈ s, c < 256) :
    ∀ x ∈ unpack7bit s, x < 128 := by
  rw [unpack7bit_spec s hc]
  exact digitsB_lt _ _ _ (by norm_num)

theorem digitsB_congr (B k1 k2 v1 v2 : Nat) (hk : k1 = k2) (hv : v1 = v2) :
    digitsB B k1 v1 = digitsB B k2 v2 := by
  rw [hk, hv]

theorem pack7bitGo_spec (t : List Nat) : ∀ buf buflen : Nat,
    (∀ x ∈ t, x < 128) → buf < 2 ^ buflen → buflen ≤ 7 →
    pack7bitGo t buf buflen =
      digitsB 256 ((buflen + 7 * t.length + 7) / 8) (buf + radixB 128 t * 2 ^ buflen) := by
  induction t with
  | nil =>
    intro buf buflen ht hb hl
    simp only [pack7bitGo, List.length_nil, radixB]
    rcases Nat.eq_zero_or_pos buflen with h0 | h0
    · subst h0
      have hb0 : buf = 0 := by omega
      subst hb0
      norm_num [digitsB]
    · rw [if_pos h0]
      have hq : (buflen + 7 * 0 + 7) / 8 = 1 := by omega
      rw [hq]
      simp only [digitsB, Nat.zero_mul, Nat.add_zero]
      have hm : buf % 256 = buf := Nat.mod_eq_of_lt (by
        calc buf < 2 ^ buflen := hb
          _ ≤ 2 ^ 7 := Nat.pow_le_pow_right (by omega) hl
          _ < 256 := by norm_num)
      rw [hm]
  | cons c t ih =>
    intro buf buflen ht hb hl
    have hc0 : c < 128 := ht c (by simp)
    have hor : buf ||| (c <<< buflen) = buf + c * 2 ^ buflen :=
      lor_shiftLeft_eq_add _ _ _ hb
    have hpow7 : 2 ^ (buflen + 7) = 2 ^ buflen * 128 := by
      rw [pow_add]; norm_num
    have hlt : buf + c * 2 ^ buflen < 2 ^ (buflen + 7) := by
      rw [hpow7]
      calc buf + c * 2 ^ buflen < 2 ^ buflen + c * 2 ^ buflen :=
            Nat.add_lt_add_right hb _
        _ = (1 + c) * 2 ^ buflen := by ring
        _ ≤ 128 * 2 ^ buflen := Nat.mul_le_mul_right _ (by omega)
        _ = 2 ^ buflen * 128 := by ring
    simp only [pack7bitGo]
    rw [hor]
    rcases Nat.eq_zero_or_pos buflen with h0 | h0
    · subst h0
      rw [if_neg (by omega)]
      rw [ih _ _ (fun x hx => ht x (by simp [hx])) (by simpa using hlt) (by omega)]
      simp only [List.length_cons, radixB]
      apply digitsB_congr
      · omega
      · have h128 : (2 : Nat) ^ 7 = 128 := by norm_num
        simp only [pow_zero, Nat.mul_one, Nat.zero_add, h128]
        ring
    · rw [if_pos (by omega)]
      have hdiv : buf + c * 2 ^ buflen < 2 ^ (buflen - 1) * 256 := by
        calc buf + c * 2 ^ buflen < 2 ^ (buflen + 7) := hlt
          _ = 2 ^ (buflen - 1) * 256 := by
              rw [show buflen + 7 = (buflen - 1) + 8 by omega, pow_add]
              norm_num
      have hshift : (buf + c * 2 ^ buflen) >>> 8 < 2 ^ (buflen + 7 - 8) := by
        rw [shiftRight_8_eq]
        rw [Nat.div_lt_iff_lt_mul (by norm_num : (0:Nat) < 256)]
        calc buf + c * 2 ^ buflen < 2 ^ (buflen - 1) * 256 := hdiv
          _ = 2 ^ (buflen + 7 - 8) * 256 := by
              rw [show buflen + 7 - 8 = buflen - 1 from by omega]
      rw [ih _ _ (fun x hx => ht x (by simp [hx])) hshift (by omega)]
      have hcount : (buflen + 7 * (t.length + 1) + 7) / 8 =
          (buflen + 7 - 8 + 7 * t.length + 7) / 8 + 1 := by omega
      rw [List.length_cons, hcount]
      simp only [digitsB]
      set buf1 := buf + c * 2 ^ buflen with hbuf1
      have hV : buf + radixB 128 (c :: t) * 2 ^ buflen =
          buf1 + (radixB 128 t * 2 ^ (buflen - 1)) * 256 := by
        simp only [radixB, hbuf1]
        have h2 : 2 ^ (buflen - 1) * 256 = 2 ^ buflen * 128 := by
          rw [show (256 : Nat) = 2 ^ 8 by norm_num, show (128 : Nat) = 2 ^ 7 by norm_num,
            ← pow_add, ← pow_add]
          congr 1
          omega
        calc buf + (c + 128 * radixB 128 t) * 2 ^ buflen
            = buf + c * 2 ^ buflen + radixB 128 t * (2 ^ buflen * 128) := by ring
          _ = buf + c * 2 ^ buflen + radixB 128 t * (2 ^ (buflen - 1) * 256) := by rw [h2]
          _ = buf + c * 2 ^ buflen + radixB 128 t * 2 ^ (buflen - 1) * 256 := by ring
      rw [hV, Nat.add_mul_mod_self_right, Nat.add_mul_div_right _ _ (by norm_num : (0:Nat) < 256)]
      rw [and_255_eq, shiftRight_8_eq, show buflen + 7 - 8 = buflen - 1 by omega]

theorem pack7bit_spec (t : List Nat) (ht : ∀ x ∈ t, x < 128) :
    pack7bit t = digitsB 256 ((7 * t.length + 7) / 8) (radixB 128 t) := by
  have h := pack7bitGo_spec t 0 0 ht (by norm_num) (by norm_num)
  simpa [pack7bit] using h

theorem unpack_pack_roundtrip (t : List Nat) (ht : ∀ x ∈ t, x < 128) :
    (unpack7bit (pack7bit t)).take t.length = t := by
  set P := (7 * t.length + 7) / 8 with hP
  have hpack := pack7bit_spec t ht
  have hmem : ∀ c ∈ pack7bit t, c < 256 := by
    rw [hpack]
    exact digitsB_lt _ _ _ (by norm_num)
  have hlen : (pack7bit t).length = P := by rw [hpack, digitsB_length]
  rw [unpack7bit_spec _ hmem, hlen, hpack, radixB_digitsB _ _ _ (by norm_num)]
  have hVlt : radixB 128 t < 256 ^ P := by
    calc radixB 128 t < 128 ^ t.length := radixB_lt _ _ (by norm_num) ht
      _ ≤ 256 ^ P := by
          rw [show (128 : Nat) = 2 ^ 7 from by norm_num,
            show (256 : Nat) = 2 ^ 8 from by norm_num, ← Nat.pow_mul, ← Nat.pow_mul]
          exact Nat.pow_le_pow_right (by omega) (by omega)
  rw [Nat.mod_eq_of_lt hVlt]
  rw [digitsB_take _ _ _ _ (by omega : t.length ≤ 8 * P / 7)]
  exact digitsB_radixB 128 t ht

theorem translateSMS_ok (l : List Nat) (h : ∀ x ∈ l, x < 128) :
    ∃ r, translateSMS l basicSMSset = .ok r := by
  induction l with
  | nil => exact ⟨[], rfl⟩
  | cons b rest ih =>
    have hb : b < 128 := h b (by simp)
    have hbl : b < basicSMSset.length := by
      rw [show basicSMSset.length = 128 from rfl]
      exact hb
    obtain ⟨r, hr⟩ := ih (fun x hx => h x (by simp [hx]))
    refine ⟨basicSMSset[b] :: r, ?_⟩
    simp only [translateSMS, List.getElem?_eq_getElem hbl, hr]

/-- C5: for every sequence of L septet values (each in 0..127), packing it
into `ceil(L * 7 / 8)` bytes in GSM 7-bit packed form and then running the
unpacker `unpack7bit` and truncating the output to L septets reproduces the
original sequence exactly. -/
theorem C5_pack_unpack_roundtrip (t : List Nat) (ht : ∀ x ∈ t, x < 128) :
    (pack7bit t).length = (7 * t.length + 7) / 8 ∧
      (unpack7bit (pack7bit t)).take t.length = t :=
  ⟨by rw [pack7bit_spec t ht, digitsB_length], unpack_pack_roundtrip t ht⟩

theorem C5_witness :
    (∀ x ∈ ([104, 101, 108, 108, 111] : List Nat), x < 128) ∧
      (pack7bit [104, 101, 108, 108, 111]).length = (7 * 5 + 7) / 8 ∧
      (unpack7bit (pack7bit [104, 101, 108, 108, 111])).take 5 =
        [104, 101, 108, 108, 111] :=
  ⟨by decide, C5_pack_unpack_roundtrip [104, 101, 108, 108, 111] (by decide)⟩

/-- C9: the non-Unicode user-data path is index safe by arithmetic.  For
every septet count below 256, unpacking `length - length / 8` buffer bytes
yields at least `length` septets, so the truncation performed by
`parseDeliverMessage` is in range, and every septet emitted by `unpack7bit`
is below 128, so the 128-entry `basicSMSset` lookup made by `translateSMS`
always succeeds. -/
theorem C9_unpack_translate_safe (L : Nat) (s : List Nat) (hL : L < 256)
    (hlen : s.length = L - L / 8) (hmem : ∀ x ∈ s, x < 256) :
    L ≤ (unpack7bit s).length ∧ (∀ x ∈ unpack7bit s, x < 128) ∧
      ∃ r, translateSMS ((unpack7bit s).take L) basicSMSset = Except.ok r := by
  have h1 : (unpack7bit s).length = 8 * s.length / 7 := unpack7bit_length s hmem
  refine ⟨by omega, unpack7bit_mem_lt s hmem, ?_⟩
  exact translateSMS_ok _ (fun x hx => unpack7bit_mem_lt s hmem x (List.mem_of_mem_take hx))

theorem C9_witness :
    ((8 : Nat) < 256 ∧ (List.replicate 7 (0 : Nat)).length = 8 - 8 / 8) ∧
      8 ≤ (unpack7bit (List.replicate 7 0)).length ∧
      (∀ x ∈ unpack7bit (List.replicate 7 0), x < 128) ∧
      ∃ r, translateSMS ((unpack7bit (List.replicate 7 0)).take 8) basicSMSset =
        Except.ok r :=
  ⟨⟨by decide, by decide⟩,
    C9_unpack_translate_safe 8 (List.replicate 7 0) (by decide) (by decide) (by decide)⟩

/-- C6: for every input byte sequence the BCD decoder emits, per byte, the
low-nibble digit first and then the high-nibble digit unless the high nibble
is 0xf, in which case it stops immediately after the low nibble; in
particular bytes 0x10 0x32 decode to the digit string 0123 and byte 0xf1
decodes to the single digit 1. -/
theorem C6_decodeBCD_spec :
    (∀ b : List Nat, (∀ c ∈ b, c >>> 4 ≠ 15) →
        decodeBCD b =
          b.foldr (fun c acc => (48 + (c &&& 15)) :: (48 + (c >>> 4)) :: acc) []) ∧
      (∀ (pre : List Nat) (c : Nat) (post : List Nat),
        (∀ x ∈ pre, x >>> 4 ≠ 15) → c >>> 4 = 15 →
        decodeBCD (pre ++ c :: post) =
          pre.foldr (fun x acc => (48 + (x &&& 15)) :: (48 + (x >>> 4)) :: acc) []
            ++ [48 + (c &&& 15)]) ∧
      decodeBCD [16, 50] = [48, 49, 50, 51] ∧ decodeBCD [241] = [49] := by
  refine ⟨?_, ?_, by decide, by decide⟩
  · intro b hb
    induction b with
    | nil => rfl
    | cons c rest ih =>
      have hc : ¬(c >>> 4 = 15) := hb c (by simp)
      simp only [decodeBCD, List.foldr_cons, if_neg hc]
      rw [ih (fun x hx => hb x (by simp [hx]))]
  · intro pre c post hpre hc
    induction pre with
    | nil => simp [decodeBCD, hc]
    | cons x rest ih =>
      have hx : ¬(x >>> 4 = 15) := hpre x (by simp)
      simp only [List.cons_append, decodeBCD, if_neg hx, List.foldr_cons, List.append_eq]
      rw [ih (fun y hy => hpre y (by simp [hy]))]

theorem C6_witness :
    decodeBCD [33, 66] = [49, 50, 50, 52] ∧ decodeBCD [33, 241, 9] = [49, 50, 49] := by
  constructor
  · have h := C6_decodeBCD_spec.1 [33, 66] (by decide)
    rw [h]
    rfl
  · have h := C6_decodeBCD_spec.2.1 [33] 241 [9] (by decide) (by decide)
    show decodeBCD ([33] ++ [241, 9]) = [49, 50, 49]
    rw [h]
    rfl

/-- C7: for every u32 stamp, `DosTime` returns the absolute time
referenceEpoch (the standard 1970 Unix epoch, instant `timeUnix 0 0`) plus
3652 days plus `stamp` seconds, with no error case; in particular stamp 0
decodes to a time exactly 3652 days after the reference epoch. -/
theorem C7_DosTime_spec (stamp : Nat) (h : stamp < 4294967296) :
    DosTime stamp =
        timeUnix 0 0 + 3652 * 86400 * 1000000000 + (stamp : Int) * 1000000000 ∧
      DosTime 0 = timeUnix 0 0 + 3652 * 86400 * 1000000000 := by
  unfold DosTime timeAdd timeUnix
  constructor <;> ring

theorem C7_witness :
    (7 : Nat) < 4294967296 ∧
      DosTime 7 = timeUnix 0 0 + 3652 * 86400 * 1000000000 + (7 : Int) * 1000000000 ∧
      DosTime 0 = timeUnix 0 0 + 3652 * 86400 * 1000000000 :=
  ⟨by decide, C7_DosTime_spec 7 (by decide)⟩

/-- C3 counterexample: the claim states that the timezone pair is combined
as `low + high * 10` quarter hours; on the 7-byte field ending in 0x12 that
formula predicts a zone offset of 10800 seconds, but `parseDateTime`
decodes the timezone pair with the same nibble-swapped `low * 10 + high`
formula as the other six pairs and produces 18900 seconds. -/
theorem C3_counterexample :
    parseDateTime [0, 0, 0, 0, 0, 0, 18] =
        Except.ok { year := 2000
                    month := 0
                    day := 0
                    hour := 0
                    minute := 0
                    second := 0
                    nsec := 0
                    zoneOffsetSeconds := 18900 } ∧
      ((18 &&& 15) + (18 >>> 4) * 10) * 15 * 60 ≠ 18900 := by
  exact ⟨rfl, by decide⟩

/-- C3 amended: for every 7-byte semi-octet timestamp field, the TPDU parser
decodes all seven BCD pairs, the timezone pair included, nibble-swapped as
`low * 10 + high`, and produces a timestamp with year 2000 plus the decoded
year, the decoded month, day, hour, minute and second, and a fixed-offset
zone of `tzQuarterHours * 15 * 60` seconds where `tzQuarterHours` is the
nibble-swapped decode of the seventh byte. -/
theorem C3_parseDateTime_amended (b : List Nat) (h : 7 ≤ b.length) :
    parseDateTime b =
      Except.ok { year := 2000 + ((b.getD 0 0 &&& 15) * 10 + (b.getD 0 0 >>> 4))
                  month := (b.getD 1 0 &&& 15) * 10 + (b.getD 1 0 >>> 4)
                  day := (b.getD 2 0 &&& 15) * 10 + (b.getD 2 0 >>> 4)
                  hour := (b.getD 3 0 &&& 15) * 10 + (b.getD 3 0 >>> 4)
                  minute := (b.getD 4 0 &&& 15) * 10 + (b.getD 4 0 >>> 4)
                  second := (b.getD 5 0 &&& 15) * 10 + (b.getD 5 0 >>> 4)
                  nsec := 0
                  zoneOffsetSeconds :=
                    ((b.getD 6 0 &&& 15) * 10 + (b.getD 6 0 >>> 4)) * 15 * 60 } := by
  simp only [parseDateTime, if_pos h]
  have hz : ∀ d : Nat, d * 3600 / 4 = d * 15 * 60 := fun d => by omega
  rw [hz]

theorem C3_witness :
    7 ≤ ([1, 2, 3, 4, 5, 6, 7] : List Nat).length ∧
      parseDateTime [1, 2, 3, 4, 5, 6, 7] =
        Except.ok { year := 2010
                    month := 20
                    day := 30
                    hour := 40
                    minute := 50
                    second := 60
                    nsec := 0
                    zoneOffsetSeconds := 63000 } := by
  refine ⟨by decide, ?_⟩
  have h := C3_parseDateTime_amended [1, 2, 3, 4, 5, 6, 7] (by decide)
  rw [h]
  rfl

/-- C10: for every input buffer on which `parseDeliverMessage` succeeds, the
`Protocol` field of the returned message is the zero byte: the TPDU byte
holding the protocol identifier is skipped without ever being assigned to
the field, regardless of the byte present at that position. -/
theorem C10_protocol_never_assigned (s : List Nat) (m : deliverMessage) (n : Nat)
    (h : parseDeliverMessage s = Except.ok (m, n)) : m.Protocol = 0 := by
  simp only [parseDeliverMessage] at h
  repeat' split at h
  all_goals first
    | exact Except.noConfusion h
    | (simp only [Except.ok.injEq, Prod.mk.injEq] at h
       obtain ⟨hm, hn⟩ := h
       subst hm
       rfl)

theorem C10_witness :
    ∃ m n, parseDeliverMessage (List.replicate 13 0) = Except.ok (m, n) ∧
      m.Protocol = 0 := by
  have h : parseDeliverMessage (List.replicate 13 0) =
      Except.ok ({ MoreMsg := true, SMSCStamp := { year := 2000 } }, 13) := by rfl
  exact ⟨_, _, h, C10_protocol_never_assigned _ _ _ h⟩

theorem hexDigitVal_lt (c d : Nat) (h : hexDigitVal c = some d) : d < 16 := by
  unfold hexDigitVal at h
  repeat' split at h
  · simp only [Option.some.injEq] at h; omega
  · simp only [Option.some.injEq] at h; omega
  · simp only [Option.some.injEq] at h; omega
  · exact Option.noConfusion h

theorem hexStep_bounds (k acc d : Nat) (hd : d < 16)
    (hb : 16 ^ (k + 1) * (acc + 1) ≤ 4294967296) :
    16 * acc + d ≤ 4294967295 ∧ 16 ^ k * (16 * acc + d + 1) ≤ 4294967296 := by
  have h16 : (0 : Nat) < 16 ^ k := Nat.pos_pow_of_pos _ (by omega)
  have hk : 16 ^ (k + 1) * (acc + 1) = 16 ^ k * (16 * (acc + 1)) := by
    rw [pow_succ]; ring
  rw [hk] at hb
  constructor
  · have h1 : 16 * (acc + 1) ≤ 4294967296 :=
      le_trans (Nat.le_mul_of_pos_left _ h16) hb
    omega
  · calc 16 ^ k * (16 * acc + d + 1) ≤ 16 ^ k * (16 * (acc + 1)) :=
        Nat.mul_le_mul_left _ (by omega)
      _ ≤ 4294967296 := hb

theorem parseHexDigits_ok (l : List Nat) : ∀ acc : Nat,
    (∀ c ∈ l, (hexDigitVal c).isSome) → 16 ^ l.length * (acc + 1) ≤ 4294967296 →
    ∃ n, parseHexDigits l acc = .ok n := by
  induction l with
  | nil => intro acc _ _; exact ⟨acc, rfl⟩
  | cons c rest ih =>
    intro acc h hb
    obtain ⟨d, hd⟩ := Option.isSome_iff_exists.mp (h c (by simp))
    have hdl := hexDigitVal_lt c d hd
    rw [List.length_cons] at hb
    obtain ⟨hov, hrec⟩ := hexStep_bounds rest.length acc d hdl hb
    simp only [parseHexDigits, hd, if_pos hov]
    exact ih _ (fun x hx => h x (by simp [hx])) hrec

theorem parseHexDigits_err (l : List Nat) : ∀ acc : Nat,
    16 ^ l.length * (acc + 1) ≤ 4294967296 → (¬ ∀ c ∈ l, (hexDigitVal c).isSome) →
    parseHexDigits l acc = .error .decodeErr := by
  induction l with
  | nil => intro acc _ h; exact absurd (by simp) h
  | cons c rest ih =>
    intro acc hb h
    by_cases hc : (hexDigitVal c).isSome
    · obtain ⟨d, hd⟩ := Option.isSome_iff_exists.mp hc
      have hdl := hexDigitVal_lt c d hd
      rw [List.length_cons] at hb
      obtain ⟨hov, hrec⟩ := hexStep_bounds rest.length acc d hdl hb
      simp only [parseHexDigits, hd, if_pos hov]
      apply ih _ hrec
      intro hall
      exact h (fun x hx => by
        rcases List.mem_cons.mp hx with hx0 | hx1
        · exact hx0 ▸ hc
        · exact hall x hx1)
    · have hn : hexDigitVal c = none := Option.not_isSome_iff_eq_none.mp hc
      simp [parseHexDigits, hn]

theorem parseUint32Hex_ok (l : List Nat) (hne : l ≠ []) (hlen : l.length ≤ 8)
    (hhex : ∀ c ∈ l, (hexDigitVal c).isSome) : ∃ n, parseUint32Hex l = .ok n := by
  unfold parseUint32Hex
  rw [if_neg (by simp [List.isEmpty_iff, hne])]
  apply parseHexDigits_ok l 0 hhex
  calc 16 ^ l.length * (0 + 1) = 16 ^ l.length := by ring
    _ ≤ 16 ^ 8 := Nat.pow_le_pow_right (by omega) hlen
    _ ≤ 4294967296 := by norm_num

theorem parseUint32Hex_err (l : List Nat) (hlen : l.length ≤ 8)
    (hhex : ¬ ∀ c ∈ l, (hexDigitVal c).isSome) :
    parseUint32Hex l = .error .decodeErr := by
  unfold parseUint32Hex
  have hne : ¬ l.isEmpty = true := by
    rw [List.isEmpty_iff]
    rintro rfl
    exact hhex (by simp)
  rw [if_neg hne]
  apply parseHexDigits_err l 0 _ hhex
  calc 16 ^ l.length * (0 + 1) = 16 ^ l.length := by ring
    _ ≤ 16 ^ 8 := Nat.pow_le_pow_right (by omega) hlen
    _ ≤ 4294967296 := by norm_num

theorem getUint32_ok (s : List Nat) (hlen : 8 ≤ s.length)
    (hhex : ∀ c ∈ s.take 8, (hexDigitVal c).isSome) :
    ∃ n, getUint32 s = .ok (s.drop 8, n) := by
  obtain ⟨n, hn⟩ := parseUint32Hex_ok (s.take 8)
    (List.ne_nil_of_length_pos (by rw [List.length_take]; omega))
    (by simp [List.length_take]) hhex
  refine ⟨n, ?_⟩
  unfold getUint32
  rw [if_pos hlen, hn]

theorem getUint32_oob (s : List Nat) (hlen : s.length < 8) :
    getUint32 s = .error .oob := by
  unfold getUint32
  rw [if_neg (by omega)]

theorem getUint32_err (s : List Nat) (hlen : 8 ≤ s.length)
    (hhex : ¬ ∀ c ∈ s.take 8, (hexDigitVal c).isSome) :
    getUint32 s = .error .decodeErr := by
  unfold getUint32
  rw [if_pos hlen, parseUint32Hex_err (s.take 8) (by simp [List.length_take]) hhex]

theorem drop8_drop8 (s : List Nat) : List.drop 8 (List.drop 8 s) = List.drop 16 s := by
  rw [List.drop_drop]

theorem drop8_drop16 (s : List Nat) : List.drop 8 (List.drop 16 s) = List.drop 24 s := by
  rw [List.drop_drop]

theorem drop8_drop24 (s : List Nat) : List.drop 8 (List.drop 24 s) = List.drop 32 s := by
  rw [List.drop_drop]

theorem drop8_drop32 (s : List Nat) : List.drop 8 (List.drop 32 s) = List.drop 40 s := by
  rw [List.drop_drop]

theorem drop25_drop40 (s : List Nat) : List.drop 25 (List.drop 40 s) = List.drop 65 s := by
  rw [List.drop_drop]

theorem drop12_drop65 (s : List Nat) : List.drop 12 (List.drop 65 s) = List.drop 77 s := by
  rw [List.drop_drop]

theorem ParseFilename_ok (s : List Nat) (hlen : 85 ≤ s.length)
    (F1 : ∀ c ∈ s.take 8, (hexDigitVal c).isSome)
    (F2 : ∀ c ∈ (s.drop 8).take 8, (hexDigitVal c).isSome)
    (F3 : ∀ c ∈ (s.drop 16).take 8, (hexDigitVal c).isSome)
    (F4 : ∀ c ∈ (s.drop 32).take 8, (hexDigitVal c).isSome) :
    ∃ m, ParseFilename s = Except.ok m := by
  obtain ⟨n1, e1⟩ := getUint32_ok s (by omega) F1
  obtain ⟨n2, e2⟩ := getUint32_ok (s.drop 8) (by rw [List.length_drop]; omega) F2
  obtain ⟨n3, e3⟩ := getUint32_ok (s.drop 16) (by rw [List.length_drop]; omega) F3
  obtain ⟨n4, e4⟩ := getUint32_ok (s.drop 32) (by rw [List.length_drop]; omega) F4
  rw [drop8_drop8] at e2
  rw [drop8_drop16] at e3
  rw [drop8_drop32] at e4
  have c1 : 8 ≤ (List.drop 24 s).length := by rw [List.length_drop]; omega
  have c2 : 25 ≤ (List.drop 40 s).length := by rw [List.length_drop]; omega
  have c3 : 12 ≤ (List.drop 65 s).length := by rw [List.length_drop]; omega
  have c4 : 7 < (List.drop 77 s).length := by rw [List.length_drop]; omega
  have hres : ParseFilename s = Except.ok
      { Seq := n1
        Timestamp := n2
        MultipartSeq := (n3 >>> 16) % 65536
        Flags := n3 % 65536
        PartNo := (n4 >>> 12) % 256
        PartTotal := (n4 >>> 20) % 256
        Peer := (List.drop 65 s).take 12
        Pad := (List.drop 77 s).getD 7 0 } := by
    simp only [ParseFilename, e1, e2, e3, drop8_drop24, e4, drop25_drop40, drop12_drop65]
    rw [if_pos c1, if_pos c2, if_pos c3, if_pos c4]
  exact ⟨_, hres⟩

theorem ParseFilename_short (s : List Nat) (hhex : ∀ c ∈ s, (hexDigitVal c).isSome)
    (hshort : s.length < 85) : ParseFilename s = Except.error Err.oob := by
  have hsub : ∀ a b : Nat, ∀ c ∈ (s.drop a).take b, (hexDigitVal c).isSome :=
    fun a b c hc => hhex c (List.mem_of_mem_drop (List.mem_of_mem_take hc))
  have hsub0 : ∀ b : Nat, ∀ c ∈ s.take b, (hexDigitVal c).isSome :=
    fun b c hc => hhex c (List.mem_of_mem_take hc)
  rcases Nat.lt_or_ge s.length 8 with h8 | h8
  · simp only [ParseFilename, getUint32_oob s h8]
  obtain ⟨n1, e1⟩ := getUint32_ok s h8 (hsub0 8)
  rcases Nat.lt_or_ge s.length 16 with h16 | h16
  · have e2 := getUint32_oob (s.drop 8) (by rw [List.length_drop]; omega)
    simp only [ParseFilename, e1, e2]
  obtain ⟨n2, e2⟩ := getUint32_ok (s.drop 8) (by rw [List.length_drop]; omega) (hsub 8 8)
  rw [drop8_drop8] at e2
  rcases Nat.lt_or_ge s.length 24 with h24 | h24
  · have e3 := getUint32_oob (s.drop 16) (by rw [List.length_drop]; omega)
    simp only [ParseFilename, e1, e2, e3]
  obtain ⟨n3, e3⟩ := getUint32_ok (s.drop 16) (by rw [List.length_drop]; omega) (hsub 16 8)
  rw [drop8_drop16] at e3
  rcases Nat.lt_or_ge s.length 32 with h32 | h32
  · have c1 : ¬ 8 ≤ (List.drop 24 s).length := by rw [List.length_drop]; omega
    simp only [ParseFilename, e1, e2, e3]
    rw [if_neg c1]
  have c1 : 8 ≤ (List.drop 24 s).length := by rw [List.length_drop]; omega
  rcases Nat.lt_or_ge s.length 40 with h40 | h40
  · have e4 := getUint32_oob (s.drop 32) (by rw [List.length_drop]; omega)
    simp only [ParseFilename, e1, e2, e3, drop8_drop24, e4]
    rw [if_pos c1]
  obtain ⟨n4, e4⟩ := getUint32_ok (s.drop 32) (by rw [List.length_drop]; omega) (hsub 32 8)
  rw [drop8_drop32] at e4
  rcases Nat.lt_or_ge s.length 65 with h65 | h65
  · have c2 : ¬ 25 ≤ (List.drop 40 s).length := by rw [List.length_drop]; omega
    simp only [ParseFilename, e1, e2, e3, drop8_drop24, e4]
    rw [if_pos c1, if_neg c2]
  have c2 : 25 ≤ (List.drop 40 s).length := by rw [List.length_drop]; omega
  rcases Nat.lt_or_ge s.length 77 with h77 | h77
  · have c3 : ¬ 12 ≤ (List.drop 65 s).length := by rw [List.length_drop]; omega
    simp only [ParseFilename, e1, e2, e3, drop8_drop24, e4, drop25_drop40]
    rw [if_pos c1, if_pos c2, if_neg c3]
  have c3 : 12 ≤ (List.drop 65 s).length := by rw [List.length_drop]; omega
  have c4 : ¬ 7 < (List.drop 77 s).length := by rw [List.length_drop]; omega
  simp only [ParseFilename, e1, e2, e3, drop8_drop24, e4, drop25_drop40, drop12_drop65]
  rw [if_pos c1, if_pos c2, if_pos c3, if_neg c4]

theorem ParseFilename_badhex (s : List Nat) (hlen : 85 ≤ s.length)
    (hbad : ¬ ((∀ c ∈ s.take 8, (hexDigitVal c).isSome) ∧
      (∀ c ∈ (s.drop 8).take 8, (hexDigitVal c).isSome) ∧
      (∀ c ∈ (s.drop 16).take 8, (hexDigitVal c).isSome) ∧
      (∀ c ∈ (s.drop 32).take 8, (hexDigitVal c).isSome))) :
    ParseFilename s = Except.error Err.decodeErr := by
  by_cases F1 : ∀ c ∈ s.take 8, (hexDigitVal c).isSome
  case neg =>
    have e1 := getUint32_err s (by omega) F1
    simp only [ParseFilename, e1]
  obtain ⟨n1, e1⟩ := getUint32_ok s (by omega) F1
  by_cases F2 : ∀ c ∈ (s.drop 8).take 8, (hexDigitVal c).isSome
  case neg =>
    have e2 := getUint32_err (s.drop 8) (by rw [List.length_drop]; omega) F2
    simp only [ParseFilename, e1, e2]
  obtain ⟨n2, e2⟩ := getUint32_ok (s.drop 8) (by rw [List.length_drop]; omega) F2
  rw [drop8_drop8] at e2
  by_cases F3 : ∀ c ∈ (s.drop 16).take 8, (hexDigitVal c).isSome
  case neg =>
    have e3 := getUint32_err (s.drop 16) (by rw [List.length_drop]; omega) F3
    simp only [ParseFilename, e1, e2, e3]
  obtain ⟨n3, e3⟩ := getUint32_ok (s.drop 16) (by rw [List.length_drop]; omega) F3
  rw [drop8_drop16] at e3
  have c1 : 8 ≤ (List.drop 24 s).length := by rw [List.length_drop]; omega
  by_cases F4 : ∀ c ∈ (s.drop 32).take 8, (hexDigitVal c).isSome
  case neg =>
    have e4 := getUint32_err (s.drop 32) (by rw [List.length_drop]; omega) F4
    simp only [ParseFilename, e1, e2, e3, drop8_drop24, e4]
    rw [if_pos c1]
  exact absurd ⟨F1, F2, F3, F4⟩ hbad

/-- C2 counterexample: the claim states that an input too short for a
fixed-width consumption step yields a returned decode error; on the empty
string `ParseFilename` instead performs the out-of-range slice `s[:8]`,
modelled as the abort outcome `Err.oob`, which is not the returned error
`Err.decodeErr`. -/
theorem C2_counterexample :
    ParseFilename [] = Except.error Err.oob ∧ Err.oob ≠ Err.decodeErr :=
  ⟨rfl, by decide⟩

/-- C2 amended: `ParseFilename` fails with a returned decode error whenever
one of the four 8-hex-digit fields (at offsets 0, 8, 16 and 32) does not
parse as a 32-bit unsigned hex integer, provided the string is long enough
(at least 85 bytes) to reach every consumption step; but when the string is
too short for some fixed-width consumption step it performs an out-of-range
slice access (the crash outcome `Err.oob`) rather than returning a decode
error. -/
theorem C2_ParseFilename_amended (s : List Nat) :
    ((∀ c ∈ s, (hexDigitVal c).isSome) → s.length < 85 →
        ParseFilename s = Except.error Err.oob) ∧
      (85 ≤ s.length →
        ((∀ c ∈ s.take 8, (hexDigitVal c).isSome) ∧
            (∀ c ∈ (s.drop 8).take 8, (hexDigitVal c).isSome) ∧
            (∀ c ∈ (s.drop 16).take 8, (hexDigitVal c).isSome) ∧
            (∀ c ∈ (s.drop 32).take 8, (hexDigitVal c).isSome) →
          ∃ m, ParseFilename s = Except.ok m) ∧
        (¬ ((∀ c ∈ s.take 8, (hexDigitVal c).isSome) ∧
            (∀ c ∈ (s.drop 8).take 8, (hexDigitVal c).isSome) ∧
            (∀ c ∈ (s.drop 16).take 8, (hexDigitVal c).isSome) ∧
            (∀ c ∈ (s.drop 32).take 8, (hexDigitVal c).isSome)) →
          ParseFilename s = Except.error Err.decodeErr)) :=
  ⟨fun hhex hshort => ParseFilename_short s hhex hshort,
    fun hlen =>
      ⟨fun hf => ParseFilename_ok s hlen hf.1 hf.2.1 hf.2.2.1 hf.2.2.2,
        fun hbad => ParseFilename_badhex s hlen hbad⟩⟩

theorem C2_witness :
    ParseFilename (List.replicate 10 48) = Except.error Err.oob ∧
      (∃ m, ParseFilename (List.replicate 85 48) = Except.ok m) ∧
      ParseFilename (List.replicate 85 103) = Except.error Err.decodeErr := by
  refine ⟨(C2_ParseFilename_amended (List.replicate 10 48)).1 (by decide) (by decide),
    ((C2_ParseFilename_amended (List.replicate 85 48)).2 (by decide)).1
      ⟨by decide, by decide, by decide, by decide⟩,
    ((C2_ParseFilename_amended (List.replicate 85 103)).2 (by decide)).2 ?_⟩
  intro hf
  exact absurd (hf.1 103 (by decide)) (by decide)

theorem parseDateTime_ok (b : List Nat) (h : b.length = 7) :
    parseDateTime b =
      Except.ok { year := 2000 + ((b.getD 0 0 &&& 0xf) * 10 + (b.getD 0 0 >>> 4))
                  month := (b.getD 1 0 &&& 0xf) * 10 + (b.getD 1 0 >>> 4)
                  day := (b.getD 2 0 &&& 0xf) * 10 + (b.getD 2 0 >>> 4)
                  hour := (b.getD 3 0 &&& 0xf) * 10 + (b.getD 3 0 >>> 4)
                  minute := (b.getD 4 0 &&& 0xf) * 10 + (b.getD 4 0 >>> 4)
                  second := (b.getD 5 0 &&& 0xf) * 10 + (b.getD 5 0 >>> 4)
                  nsec := 0
                  zoneOffsetSeconds :=
                    ((b.getD 6 0 &&& 0xf) * 10 + (b.getD 6 0 >>> 4)) * 3600 / 4 } := by
  unfold parseDateTime
  rw [if_pos (by omega)]

theorem pdm_concat8_unicode (t0 nbLen toa proto fmt L : Nat) (addr dts ud : List Nat)
    (ha : addr.length = (nbLen + 1) / 2) (hd : dts.length = 7)
    (hU : fmt &&& 8 ≠ 0) (hL6 : 6 ≤ L) (hLud : L ≤ ud.length)
    (h5 : ud.getD 0 0 = 5) (h0 : ud.getD 1 0 = 0) (h3 : ud.getD 2 0 = 3) :
    ∃ m n, parseDeliverMessage
        (t0 :: nbLen :: toa :: (addr ++ proto :: fmt :: (dts ++ L :: ud))) =
        Except.ok (m, n) ∧
      m.Concat = true ∧ m.Ref = ud.getD 3 0 ∧ m.NParts = ud.getD 4 0 ∧
      m.Part = ud.getD 5 0 ∧ m.RawData = (ud.take L).drop 6 := by
  set s := t0 :: nbLen :: toa :: (addr ++ proto :: fmt :: (dts ++ L :: ud)) with hs
  have hg0 : s.getD 0 0 = t0 := rfl
  have hg1 : s.getD 1 0 = nbLen := rfl
  have hlen : s.length = 3 + (addr.length + (2 + (dts.length + (1 + ud.length)))) := by
    simp [hs, List.length_append]
    omega
  have hp : List.drop (3 + (nbLen + 1) / 2) s = proto :: fmt :: (dts ++ L :: ud) := by
    rw [← List.drop_drop, hs]
    show List.drop ((nbLen + 1) / 2) (addr ++ proto :: fmt :: (dts ++ L :: ud)) = _
    rw [← ha, List.drop_left]
  have haddr : List.drop 3 (List.take (3 + (nbLen + 1) / 2) s) = addr := by
    rw [List.drop_take, Nat.add_sub_cancel_left, hs]
    show List.take ((nbLen + 1) / 2) (addr ++ proto :: fmt :: (dts ++ L :: ud)) = _
    rw [← ha, List.take_left]
  have hp2 : List.drop (3 + (nbLen + 1) / 2 + 9) s = L :: ud := by
    rw [← List.drop_drop, hp]
    show List.drop 7 (dts ++ L :: ud) = _
    rw [← hd, List.drop_left]
  have hdt : List.drop 2 (List.take 9 (List.drop (3 + (nbLen + 1) / 2) s)) = dts := by
    rw [hp]
    show (dts ++ L :: ud).take 7 = dts
    rw [← hd, List.take_left]
  have hfmt : (List.drop (3 + (nbLen + 1) / 2) s).getD 1 0 = fmt := by
    rw [hp]
    rfl
  have c1 : 2 ≤ s.length := by rw [hlen]; omega
  have c2 : 3 + (nbLen + 1) / 2 ≤ s.length := by rw [hlen, ← ha]; omega
  have c3 : 9 ≤ (List.drop (3 + (nbLen + 1) / 2) s).length := by
    rw [hp]
    simp [List.length_append, hd]
  have c4 : 1 ≤ (List.drop (3 + (nbLen + 1) / 2 + 9) s).length := by
    rw [hp2]
    simp
  have hgL : (List.drop (3 + (nbLen + 1) / 2 + 9) s).getD 0 0 = L := by
    rw [hp2]
    rfl
  have hud : List.drop 1 (List.drop (3 + (nbLen + 1) / 2 + 9) s) = ud := by
    rw [hp2]
    rfl
  have hUb : (fmt &&& 8 != 0) = true := by
    simp [bne_iff_ne]
    exact hU
  have cU : L + 1 ≤ (List.drop (3 + (nbLen + 1) / 2 + 9) s).length := by
    rw [hp2]
    simp
    omega
  have hraw : List.drop 1 (List.take (L + 1) (List.drop (3 + (nbLen + 1) / 2 + 9) s)) =
      ud.take L := by
    rw [hp2]
    rfl
  have cstrip : 6 ≤ (List.take L ud).length := by
    simp [List.length_take]
    omega
  have h6len : 6 ≤ ud.length := by omega
  have hres : parseDeliverMessage s =
      Except.ok ({ MsgType := t0 &&& 3
                   MoreMsg := t0 &&& 4 == 0
                   FromAddr := decodeBCD addr
                   Protocol := 0
                   Compressed := fmt &&& 0x20 != 0
                   Unicode := fmt &&& 8 != 0
                   SMSCStamp :=
                     { year := 2000 + ((dts.getD 0 0 &&& 0xf) * 10 + (dts.getD 0 0 >>> 4))
                       month := (dts.getD 1 0 &&& 0xf) * 10 + (dts.getD 1 0 >>> 4)
                       day := (dts.getD 2 0 &&& 0xf) * 10 + (dts.getD 2 0 >>> 4)
                       hour := (dts.getD 3 0 &&& 0xf) * 10 + (dts.getD 3 0 >>> 4)
                       minute := (dts.getD 4 0 &&& 0xf) * 10 + (dts.getD 4 0 >>> 4)
                       second := (dts.getD 5 0 &&& 0xf) * 10 + (dts.getD 5 0 >>> 4)
                       nsec := 0
                       zoneOffsetSeconds :=
                         ((dts.getD 6 0 &&& 0xf) * 10 + (dts.getD 6 0 >>> 4)) * 3600 / 4 }
                   RawData := (ud.take L).drop 6
                   Concat := true
                   Ref := ud.getD 3 0
                   Part := ud.getD 5 0
                   NParts := ud.getD 4 0 },
        3 + (nbLen + 1) / 2 + 9 + L + 1) := by
    simp only [parseDeliverMessage, hg0, hg1, c1, c2, c3, haddr, hdt,
      parseDateTime_ok dts hd, hfmt, c4, hgL, hUb, cU, hraw, hud, h6len, h5, h0, h3,
      cstrip, if_true, ite_true, and_true, true_and, eq_self_iff_true]
  exact ⟨_, _, hres, rfl, rfl, rfl, rfl, rfl⟩

theorem pdm_concat8_septet (t0 nbLen toa proto fmt L : Nat) (addr dts ud : List Nat)
    (ha : addr.length = (nbLen + 1) / 2) (hd : dts.length = 7)
    (hU0 : fmt &&& 8 = 0) (hL7 : 7 ≤ L) (hpack : L - L / 8 ≤ ud.length)
    (hbytes : ∀ x ∈ ud, x < 256)
    (h5 : ud.getD 0 0 = 5) (h0 : ud.getD 1 0 = 0) (h3 : ud.getD 2 0 = 3) :
    ∃ m n, parseDeliverMessage
        (t0 :: nbLen :: toa :: (addr ++ proto :: fmt :: (dts ++ L :: ud))) =
        Except.ok (m, n) ∧
      m.Concat = true ∧ m.Ref = ud.getD 3 0 ∧ m.NParts = ud.getD 4 0 ∧
      m.Part = ud.getD 5 0 ∧
      m.RawData = ((unpack7bit (ud.take (L - L / 8))).take L).drop 7 := by
  set s := t0 :: nbLen :: toa :: (addr ++ proto :: fmt :: (dts ++ L :: ud)) with hs
  have hg0 : s.getD 0 0 = t0 := rfl
  have hg1 : s.getD 1 0 = nbLen := rfl
  have hlen : s.length = 3 + (addr.length + (2 + (dts.length + (1 + ud.length)))) := by
    simp [hs, List.length_append]
    omega
  have hp : List.drop (3 + (nbLen + 1) / 2) s = proto :: fmt :: (dts ++ L :: ud) := by
    rw [← List.drop_drop, hs]
    show List.drop ((nbLen + 1) / 2) (addr ++ proto :: fmt :: (dts ++ L :: ud)) = _
    rw [← ha, List.drop_left]
  have haddr : List.drop 3 (List.take (3 + (nbLen + 1) / 2) s) = addr := by
    rw [List.drop_take, Nat.add_sub_cancel_left, hs]
    show List.take ((nbLen + 1) / 2) (addr ++ proto :: fmt :: (dts ++ L :: ud)) = _
    rw [← ha, List.take_left]
  have hp2 : List.drop (3 + (nbLen + 1) / 2 + 9) s = L :: ud := by
    rw [← List.drop_drop, hp]
    show List.drop 7 (dts ++ L :: ud) = _
    rw [← hd, List.drop_left]
  have hdt : List.drop 2 (List.take 9 (List.drop (3 + (nbLen + 1) / 2) s)) = dts := by
    rw [hp]
    show (dts ++ L :: ud).take 7 = dts
    rw [← hd, List.take_left]
  have hfmt : (List.drop (3 + (nbLen + 1) / 2) s).getD 1 0 = fmt := by
    rw [hp]
    rfl
  have c1 : 2 ≤ s.length := by rw [hlen]; omega
  have c2 : 3 + (nbLen + 1) / 2 ≤ s.length := by rw [hlen, ← ha]; omega
  have c3 : 9 ≤ (List.drop (3 + (nbLen + 1) / 2) s).length := by
    rw [hp]
    simp [List.length_append, hd]
  have c4 : 1 ≤ (List.drop (3 + (nbLen + 1) / 2 + 9) s).length := by
    rw [hp2]
    simp
  have hgL : (List.drop (3 + (nbLen + 1) / 2 + 9) s).getD 0 0 = L := by
    rw [hp2]
    rfl
  have hud : List.drop 1 (List.drop (3 + (nbLen + 1) / 2 + 9) s) = ud := by
    rw [hp2]
    rfl
  have hUb0 : (fmt &&& 8 != 0) = false := by simp [hU0]
  have cP : 1 + (L - L / 8) ≤ (List.drop (3 + (nbLen + 1) / 2 + 9) s).length := by
    rw [hp2]
    simp
    omega
  have hrawP : List.drop 1 (List.take (1 + (L - L / 8))
      (List.drop (3 + (nbLen + 1) / 2 + 9) s)) = List.take (L - L / 8) ud := by
    rw [hp2, show 1 + (L - L / 8) = L - L / 8 + 1 from by omega, List.take_succ_cons]
    rfl
  have hunp : L ≤ (unpack7bit (List.take (L - L / 8) ud)).length := by
    rw [unpack7bit_length _ (fun x hx => hbytes x (List.mem_of_mem_take hx)),
      List.length_take]
    omega
  have cstrip7 : 7 ≤ (List.take L (unpack7bit (List.take (L - L / 8) ud))).length := by
    simp [List.length_take]
    omega
  have h6len : 6 ≤ ud.length := by omega
  have hres : parseDeliverMessage s =
      Except.ok ({ MsgType := t0 &&& 3
                   MoreMsg := t0 &&& 4 == 0
                   FromAddr := decodeBCD addr
                   Protocol := 0
                   Compressed := fmt &&& 0x20 != 0
                   Unicode := fmt &&& 8 != 0
                   SMSCStamp :=
                     { year := 2000 + ((dts.getD 0 0 &&& 0xf) * 10 + (dts.getD 0 0 >>> 4))
                       month := (dts.getD 1 0 &&& 0xf) * 10 + (dts.getD 1 0 >>> 4)
                       day := (dts.getD 2 0 &&& 0xf) * 10 + (dts.getD 2 0 >>> 4)
                       hour := (dts.getD 3 0 &&& 0xf) * 10 + (dts.getD 3 0 >>> 4)
                       minute := (dts.getD 4 0 &&& 0xf) * 10 + (dts.getD 4 0 >>> 4)
                       second := (dts.getD 5 0 &&& 0xf) * 10 + (dts.getD 5 0 >>> 4)
                       nsec := 0
                       zoneOffsetSeconds :=
                         ((dts.getD 6 0 &&& 0xf) * 10 + (dts.getD 6 0 >>> 4)) * 3600 / 4 }
                   RawData := ((unpack7bit (ud.take (L - L / 8))).take L).drop 7
                   Concat := true
                   Ref := ud.getD 3 0
                   Part := ud.getD 5 0
                   NParts := ud.getD 4 0 },
        3 + (nbLen + 1) / 2 + 9 + (L - L / 8) + 1) := by
    simp only [parseDeliverMessage, hg0, hg1, c1, c2, c3, haddr, hdt,
      parseDateTime_ok dts hd, hfmt, c4, hgL, hUb0, cP, hrawP, hud, hunp, h6len,
      h5, h0, h3, cstrip7, if_true, ite_true, if_false, ite_false,
      Bool.false_eq_true, and_true, true_and, eq_self_iff_true]
  exact ⟨_, _, hres, rfl, rfl, rfl, rfl, rfl⟩

theorem pdm_concat16_unicode (t0 nbLen toa proto fmt L : Nat) (addr dts ud : List Nat)
    (ha : addr.length = (nbLen + 1) / 2) (hd : dts.length = 7)
    (hU : fmt &&& 8 ≠ 0) (hL7 : 7 ≤ L) (hLud : L ≤ ud.length)
    (h6 : ud.getD 0 0 = 6) (h8 : ud.getD 1 0 = 8) (h4 : ud.getD 2 0 = 4) :
    ∃ m n, parseDeliverMessage
        (t0 :: nbLen :: toa :: (addr ++ proto :: fmt :: (dts ++ L :: ud))) =
        Except.ok (m, n) ∧
      m.Concat = true ∧ m.Ref = (ud.getD 3 0 <<< 8) ||| ud.getD 4 0 ∧
      m.NParts = ud.getD 5 0 ∧ m.Part = ud.getD 6 0 ∧
      m.RawData = (ud.take L).drop 7 := by
  set s := t0 :: nbLen :: toa :: (addr ++ proto :: fmt :: (dts ++ L :: ud)) with hs
  have hg0 : s.getD 0 0 = t0 := rfl
  have hg1 : s.getD 1 0 = nbLen := rfl
  have hlen : s.length = 3 + (addr.length + (2 + (dts.length + (1 + ud.length)))) := by
    simp [hs, List.length_append]
    omega
  have hp : List.drop (3 + (nbLen + 1) / 2) s = proto :: fmt :: (dts ++ L :: ud) := by
    rw [← List.drop_drop, hs]
    show List.drop ((nbLen + 1) / 2) (addr ++ proto :: fmt :: (dts ++ L :: ud)) = _
    rw [← ha, List.drop_left]
  have haddr : List.drop 3 (List.take (3 + (nbLen + 1) / 2) s) = addr := by
    rw [List.drop_take, Nat.add_sub_cancel_left, hs]
    show List.take ((nbLen + 1) / 2) (addr ++ proto :: fmt :: (dts ++ L :: ud)) = _
    rw [← ha, List.take_left]
  have hp2 : List.drop (3 + (nbLen + 1) / 2 + 9) s = L :: ud := by
    rw [← List.drop_drop, hp]
    show List.drop 7 (dts ++ L :: ud) = _
    rw [← hd, List.drop_left]
  have hdt : List.drop 2 (List.take 9 (List.drop (3 + (nbLen + 1) / 2) s)) = dts := by
    rw [hp]
    show (dts ++ L :: ud).take 7 = dts
    rw [← hd, List.take_left]
  have hfmt : (List.drop (3 + (nbLen + 1) / 2) s).getD 1 0 = fmt := by
    rw [hp]
    rfl
  have c1 : 2 ≤ s.length := by rw [hlen]; omega
  have c2 : 3 + (nbLen + 1) / 2 ≤ s.length := by rw [hlen, ← ha]; omega
  have c3 : 9 ≤ (List.drop (3 + (nbLen + 1) / 2) s).length := by
    rw [hp]
    simp [List.length_append, hd]
  have c4 : 1 ≤ (List.drop (3 + (nbLen + 1) / 2 + 9) s).length := by
    rw [hp2]
    simp
  have hgL : (List.drop (3 + (nbLen + 1) / 2 + 9) s).getD 0 0 = L := by
    rw [hp2]
    rfl
  have hud : List.drop 1 (List.drop (3 + (nbLen + 1) / 2 + 9) s) = ud := by
    rw [hp2]
    rfl
  have hUb : (fmt &&& 8 != 0) = true := by
    simp [bne_iff_ne]
    exact hU
  have cU : L + 1 ≤ (List.drop (3 + (nbLen + 1) / 2 + 9) s).length := by
    rw [hp2]
    simp
    omega
  have hraw : List.drop 1 (List.take (L + 1) (List.drop (3 + (nbLen + 1) / 2 + 9) s)) =
      ud.take L := by
    rw [hp2]
    rfl
  have hnot1 : ¬(6 ≤ ud.length ∧ ud.getD 0 0 = 5 ∧ ud.getD 1 0 = 0 ∧ ud.getD 2 0 = 3) := by
    intro hcc
    omega
  have hyes2 : 7 ≤ ud.length ∧ ud.getD 0 0 = 6 ∧ ud.getD 1 0 = 8 ∧ ud.getD 2 0 = 4 :=
    ⟨by omega, h6, h8, h4⟩
  have cstrip : 7 ≤ (List.take L ud).length := by
    simp [List.length_take]
    omega
  have hres : parseDeliverMessage s =
      Except.ok ({ MsgType := t0 &&& 3
                   MoreMsg := t0 &&& 4 == 0
                   FromAddr := decodeBCD addr
                   Protocol := 0
                   Compressed := fmt &&& 0x20 != 0
                   Unicode := fmt &&& 8 != 0
                   SMSCStamp :=
                     { year := 2000 + ((dts.getD 0 0 &&& 0xf) * 10 + (dts.getD 0 0 >>> 4))
                       month := (dts.getD 1 0 &&& 0xf) * 10 + (dts.getD 1 0 >>> 4)
                       day := (dts.getD 2 0 &&& 0xf) * 10 + (dts.getD 2 0 >>> 4)
                       hour := (dts.getD 3 0 &&& 0xf) * 10 + (dts.getD 3 0 >>> 4)
                       minute := (dts.getD 4 0 &&& 0xf) * 10 + (dts.getD 4 0 >>> 4)
                       second := (dts.getD 5 0 &&& 0xf) * 10 + (dts.getD 5 0 >>> 4)
                       nsec := 0
                       zoneOffsetSeconds :=
                         ((dts.getD 6 0 &&& 0xf) * 10 + (dts.getD 6 0 >>> 4)) * 3600 / 4 }
                   RawData := (ud.take L).drop 7
                   Concat := true
                   Ref := (ud.getD 3 0 <<< 8) ||| ud.getD 4 0
                   Part := ud.getD 6 0
                   NParts := ud.getD 5 0 },
        3 + (nbLen + 1) / 2 + 9 + L + 1) := by
    simp only [parseDeliverMessage, hg0, hg1, c1, c2, c3, haddr, hdt,
      parseDateTime_ok dts hd, hfmt, c4, hgL, hUb, cU, hraw, hud, hyes2,
      eq_false (by decide : ¬((6 : Nat) = 5)), eq_false (by decide : ¬((8 : Nat) = 0)),
      eq_false (by decide : ¬((4 : Nat) = 3)),
      cstrip, if_true, ite_true, if_false, ite_false, and_true, true_and,
      and_false, false_and, eq_self_iff_true]
  exact ⟨_, _, hres, rfl, rfl, rfl, rfl, rfl⟩

theorem pdm_concat16_septet (t0 nbLen toa proto fmt L : Nat) (addr dts ud : List Nat)
    (ha : addr.length = (nbLen + 1) / 2) (hd : dts.length = 7)
    (hU0 : fmt &&& 8 = 0) (hL8 : 8 ≤ L) (hpack : L - L / 8 ≤ ud.length)
    (hbytes : ∀ x ∈ ud, x < 256)
    (h6 : ud.getD 0 0 = 6) (h8 : ud.getD 1 0 = 8) (h4 : ud.getD 2 0 = 4) :
    ∃ m n, parseDeliverMessage
        (t0 :: nbLen :: toa :: (addr ++ proto :: fmt :: (dts ++ L :: ud))) =
        Except.ok (m, n) ∧
      m.Concat = true ∧ m.Ref = (ud.getD 3 0 <<< 8) ||| ud.getD 4 0 ∧
      m.NParts = ud.getD 5 0 ∧ m.Part = ud.getD 6 0 ∧
      m.RawData = ((unpack7bit (ud.take (L - L / 8))).take L).drop 8 := by
  set s := t0 :: nbLen :: toa :: (addr ++ proto :: fmt :: (dts ++ L :: ud)) with hs
  have hg0 : s.getD 0 0 = t0 := rfl
  have hg1 : s.getD 1 0 = nbLen := rfl
  have hlen : s.length = 3 + (addr.length + (2 + (dts.length + (1 + ud.length)))) := by
    simp [hs, List.length_append]
    omega
  have hp : List.drop (3 + (nbLen + 1) / 2) s = proto :: fmt :: (dts ++ L :: ud) := by
    rw [← List.drop_drop, hs]
    show List.drop ((nbLen + 1) / 2) (addr ++ proto :: fmt :: (dts ++ L :: ud)) = _
    rw [← ha, List.drop_left]
  have haddr : List.drop 3 (List.take (3 + (nbLen + 1) / 2) s) = addr := by
    rw [List.drop_take, Nat.add_sub_cancel_left, hs]
    show List.take ((nbLen + 1) / 2) (addr ++ proto :: fmt :: (dts ++ L :: ud)) = _
    rw [← ha, List.take_left]
  have hp2 : List.drop (3 + (nbLen + 1) / 2 + 9) s = L :: ud := by
    rw [← List.drop_drop, hp]
    show List.drop 7 (dts ++ L :: ud) = _
    rw [← hd, List.drop_left]
  have hdt : List.drop 2 (List.take 9 (List.drop (3 + (nbLen + 1) / 2) s)) = dts := by
    rw [hp]
    show (dts ++ L :: ud).take 7 = dts
    rw [← hd, List.take_left]
  have hfmt : (List.drop (3 + (nbLen + 1) / 2) s).getD 1 0 = fmt := by
    rw [hp]
    rfl
  have c1 : 2 ≤ s.length := by rw [hlen]; omega
  have c2 : 3 + (nbLen + 1) / 2 ≤ s.length := by rw [hlen, ← ha]; omega
  have c3 : 9 ≤ (List.drop (3 + (nbLen + 1) / 2) s).length := by
    rw [hp]
    simp [List.length_append, hd]
  have c4 : 1 ≤ (List.drop (3 + (nbLen + 1) / 2 + 9) s).length := by
    rw [hp2]
    simp
  have hgL : (List.drop (3 + (nbLen + 1) / 2 + 9) s).getD 0 0 = L := by
    rw [hp2]
    rfl
  have hud : List.drop 1 (List.drop (3 + (nbLen + 1) / 2 + 9) s) = ud := by
    rw [hp2]
    rfl
  have hUb0 : (fmt &&& 8 != 0) = false := by simp [hU0]
  have cP : 1 + (L - L / 8) ≤ (List.drop (3 + (nbLen + 1) / 2 + 9) s).length := by
    rw [hp2]
    simp
    omega
  have hrawP : List.drop 1 (List.take (1 + (L - L / 8))
      (List.drop (3 + (nbLen + 1) / 2 + 9) s)) = List.take (L - L / 8) ud := by
    rw [hp2, show 1 + (L - L / 8) = L - L / 8 + 1 from by omega, List.take_succ_cons]
    rfl
  have hunp : L ≤ (unpack7bit (List.take (L - L / 8) ud)).length := by
    rw [unpack7bit_length _ (fun x hx => hbytes x (List.mem_of_mem_take hx)),
      List.length_take]
    omega
  have hnot1 : ¬(6 ≤ ud.length ∧ ud.getD 0 0 = 5 ∧ ud.getD 1 0 = 0 ∧ ud.getD 2 0 = 3) := by
    intro hcc
    omega
  have hyes2 : 7 ≤ ud.length ∧ ud.getD 0 0 = 6 ∧ ud.getD 1 0 = 8 ∧ ud.getD 2 0 = 4 :=
    ⟨by omega, h6, h8, h4⟩
  have cstrip8 : 8 ≤ (List.take L (unpack7bit (List.take (L - L / 8) ud))).length := by
    simp [List.length_take]
    omega
  have hres : parseDeliverMessage s =
      Except.ok ({ MsgType := t0 &&& 3
                   MoreMsg := t0 &&& 4 == 0
                   FromAddr := decodeBCD addr
                   Protocol := 0
                   Compressed := fmt &&& 0x20 != 0
                   Unicode := fmt &&& 8 != 0
                   SMSCStamp :=
                     { year := 2000 + ((dts.getD 0 0 &&& 0xf) * 10 + (dts.getD 0 0 >>> 4))
                       month := (dts.getD 1 0 &&& 0xf) * 10 + (dts.getD 1 0 >>> 4)
                       day := (dts.getD 2 0 &&& 0xf) * 10 + (dts.getD 2 0 >>> 4)
                       hour := (dts.getD 3 0 &&& 0xf) * 10 + (dts.getD 3 0 >>> 4)
                       minute := (dts.getD 4 0 &&& 0xf) * 10 + (dts.getD 4 0 >>> 4)
                       second := (dts.getD 5 0 &&& 0xf) * 10 + (dts.getD 5 0 >>> 4)
                       nsec := 0
                       zoneOffsetSeconds :=
                         ((dts.getD 6 0 &&& 0xf) * 10 + (dts.getD 6 0 >>> 4)) * 3600 / 4 }
                   RawData := ((unpack7bit (ud.take (L - L / 8))).take L).drop 8
                   Concat := true
                   Ref := (ud.getD 3 0 <<< 8) ||| ud.getD 4 0
                   Part := ud.getD 6 0
                   NParts := ud.getD 5 0 },
        3 + (nbLen + 1) / 2 + 9 + (L - L / 8) + 1) := by
    simp only [parseDeliverMessage, hg0, hg1, c1, c2, c3, haddr, hdt,
      parseDateTime_ok dts hd, hfmt, c4, hgL, hUb0, cP, hrawP, hud, hunp,
      hyes2, eq_false (by decide : ¬((6 : Nat) = 5)), eq_false (by decide : ¬((8 : Nat) = 0)),
      eq_false (by decide : ¬((4 : Nat) = 3)),
      cstrip8, if_true, ite_true, if_false, ite_false, Bool.false_eq_true,
      and_true, true_and, and_false, false_and, eq_self_iff_true]
  exact ⟨_, _, hres, rfl, rfl, rfl, rfl, rfl⟩

/-- C4: concatenation-header handling of `parseDeliverMessage`.  For every
user-data buffer whose first 3 bytes are 0x05 0x00 0x03 the parser records
Reference from byte 3, NParts from byte 4 and Part from byte 5, and strips
exactly 6 header bytes from `RawData` if Unicode, else 7; for every buffer
whose first 3 bytes are 0x06 0x08 0x04 it records Reference as byte 3 shifted
left by 8 ored with byte 4, NParts from byte 5 and Part from byte 6, and
strips 7 bytes if Unicode, else 8.  The enclosing TPDU is any well-formed
frame: address digits of any length, any 7-byte timestamp, and a user-data
length byte L that covers the header. -/
theorem C4_concat_headers :
    (∀ (t0 nbLen toa proto fmt L : Nat) (addr dts ud : List Nat),
      addr.length = (nbLen + 1) / 2 → dts.length = 7 →
      fmt &&& 8 ≠ 0 → 6 ≤ L → L ≤ ud.length →
      ud.getD 0 0 = 5 → ud.getD 1 0 = 0 → ud.getD 2 0 = 3 →
      ∃ m n, parseDeliverMessage
          (t0 :: nbLen :: toa :: (addr ++ proto :: fmt :: (dts ++ L :: ud))) =
          Except.ok (m, n) ∧
        m.Concat = true ∧ m.Ref = ud.getD 3 0 ∧ m.NParts = ud.getD 4 0 ∧
        m.Part = ud.getD 5 0 ∧ m.RawData = (ud.take L).drop 6) ∧
    (∀ (t0 nbLen toa proto fmt L : Nat) (addr dts ud : List Nat),
      addr.length = (nbLen + 1) / 2 → dts.length = 7 →
      fmt &&& 8 = 0 → 7 ≤ L → L - L / 8 ≤ ud.length → (∀ x ∈ ud, x < 256) →
      ud.getD 0 0 = 5 → ud.getD 1 0 = 0 → ud.getD 2 0 = 3 →
      ∃ m n, parseDeliverMessage
          (t0 :: nbLen :: toa :: (addr ++ proto :: fmt :: (dts ++ L :: ud))) =
          Except.ok (m, n) ∧
        m.Concat = true ∧ m.Ref = ud.getD 3 0 ∧ m.NParts = ud.getD 4 0 ∧
        m.Part = ud.getD 5 0 ∧
        m.RawData = ((unpack7bit (ud.take (L - L / 8))).take L).drop 7) ∧
    (∀ (t0 nbLen toa proto fmt L : Nat) (addr dts ud : List Nat),
      addr.length = (nbLen + 1) / 2 → dts.length = 7 →
      fmt &&& 8 ≠ 0 → 7 ≤ L → L ≤ ud.length →
      ud.getD 0 0 = 6 → ud.getD 1 0 = 8 → ud.getD 2 0 = 4 →
      ∃ m n, parseDeliverMessage
          (t0 :: nbLen :: toa :: (addr ++ proto :: fmt :: (dts ++ L :: ud))) =
          Except.ok (m, n) ∧
        m.Concat = true ∧ m.Ref = (ud.getD 3 0 <<< 8) ||| ud.getD 4 0 ∧
        m.NParts = ud.getD 5 0 ∧ m.Part = ud.getD 6 0 ∧
        m.RawData = (ud.take L).drop 7) ∧
    (∀ (t0 nbLen toa proto fmt L : Nat) (addr dts ud : List Nat),
      addr.length = (nbLen + 1) / 2 → dts.length = 7 →
      fmt &&& 8 = 0 → 8 ≤ L → L - L / 8 ≤ ud.length → (∀ x ∈ ud, x < 256) →
      ud.getD 0 0 = 6 → ud.getD 1 0 = 8 → ud.getD 2 0 = 4 →
      ∃ m n, parseDeliverMessage
          (t0 :: nbLen :: toa :: (addr ++ proto :: fmt :: (dts ++ L :: ud))) =
          Except.ok (m, n) ∧
        m.Concat = true ∧ m.Ref = (ud.getD 3 0 <<< 8) ||| ud.getD 4 0 ∧
        m.NParts = ud.getD 5 0 ∧ m.Part = ud.getD 6 0 ∧
        m.RawData = ((unpack7bit (ud.take (L - L / 8))).take L).drop 8) :=
  ⟨pdm_concat8_unicode, pdm_concat8_septet, pdm_concat16_unicode, pdm_concat16_septet⟩

theorem C4_witness :
    (∃ m n, parseDeliverMessage
        [4, 0, 145, 0, 8, 0, 0, 0, 0, 0, 0, 0, 6, 5, 0, 3, 7, 3, 2] =
        Except.ok (m, n) ∧
      m.Concat = true ∧ m.Ref = 7 ∧ m.NParts = 3 ∧ m.Part = 2 ∧
      m.RawData = ([] : List Nat)) ∧
    (∃ m n, parseDeliverMessage
        [4, 0, 145, 0, 0, 0, 0, 0, 0, 0, 0, 0, 7, 5, 0, 3, 7, 3, 2, 0] =
        Except.ok (m, n) ∧
      m.Concat = true ∧ m.Ref = 7 ∧ m.NParts = 3 ∧ m.Part = 2 ∧
      m.RawData = ((unpack7bit [5, 0, 3, 7, 3, 2, 0]).take 7).drop 7) ∧
    (∃ m n, parseDeliverMessage
        [4, 0, 145, 0, 8, 0, 0, 0, 0, 0, 0, 0, 7, 6, 8, 4, 1, 2, 3, 2] =
        Except.ok (m, n) ∧
      m.Concat = true ∧ m.Ref = 258 ∧ m.NParts = 3 ∧ m.Part = 2 ∧
      m.RawData = ([] : List Nat)) ∧
    (∃ m n, parseDeliverMessage
        [4, 0, 145, 0, 0, 0, 0, 0, 0, 0, 0, 0, 8, 6, 8, 4, 1, 2, 3, 2, 0] =
        Except.ok (m, n) ∧
      m.Concat = true ∧ m.Ref = 258 ∧ m.NParts = 3 ∧ m.Part = 2 ∧
      m.RawData = ((unpack7bit [6, 8, 4, 1, 2, 3, 2]).take 8).drop 8) :=
  ⟨C4_concat_headers.1 4 0 145 0 8 6 [] [0, 0, 0, 0, 0, 0, 0] [5, 0, 3, 7, 3, 2]
      rfl rfl (by decide) (by decide) (by decide) rfl rfl rfl,
    C4_concat_headers.2.1 4 0 145 0 0 7 [] [0, 0, 0, 0, 0, 0, 0] [5, 0, 3, 7, 3, 2, 0]
      rfl rfl (by decide) (by decide) (by decide) (by decide) rfl rfl rfl,
    C4_concat_headers.2.2.1 4 0 145 0 8 7 [] [0, 0, 0, 0, 0, 0, 0] [6, 8, 4, 1, 2, 3, 2]
      rfl rfl (by decide) (by decide) (by decide) rfl rfl rfl,
    C4_concat_headers.2.2.2 4 0 145 0 0 8 [] [0, 0, 0, 0, 0, 0, 0] [6, 8, 4, 1, 2, 3, 2, 0]
      rfl rfl (by decide) (by decide) (by decide) (by decide) rfl rfl rfl⟩

/-- C1 counterexample: the claim states that a message whose PDU region at
offset 0xb0 starts with a byte whose low 2 bits equal 3 yields a returned
error and never a crash; on a concrete 177-byte buffer ending in the byte 3
the parser instead reaches the explicit Go panic, modelled as the crash
outcome `Err.fatal`, which is neither of the returned errors. -/
theorem C1_counterexample :
    parseMessage (List.replicate 176 0 ++ [3]) = Except.error Err.fatal ∧
      Err.fatal ≠ Err.truncated ∧ Err.fatal ≠ Err.decodeErr :=
  ⟨rfl, by decide, by decide⟩

/-- C1 amended: for every message buffer whose peer scan terminates and
whose PDU region at offset 0xb0 starts with a byte whose low 2 bits equal
3, `parseMessage` aborts through the explicit Go panic (the crash outcome
`Err.fatal`); it does not return an ordinary error and the caller never
regains control. -/
theorem C1_parseMessage_amended (s us : List Nat)
    (hscan : scanUCS2core (s.drop 94) = Except.ok us)
    (hlen : 177 ≤ s.length) (hty : s.getD 176 0 &&& 3 = 3) :
    parseMessage s = Except.error Err.fatal := by
  have hA : (176 : Nat) ≤ s.length := by omega
  have hB : 1 ≤ (List.drop 176 s).length := by rw [List.length_drop]; omega
  have hg : (List.drop 176 s).getD 0 0 &&& 3 = 3 := by
    rw [show (List.drop 176 s).getD 0 0 = s.getD 176 0 from by
      simp [List.getD_eq_getElem?_getD, List.getElem?_drop]]
    exact hty
  simp only [parseMessage, hscan]
  rw [if_pos hA, if_pos hB, hg]

theorem C1_witness :
    scanUCS2core ((List.replicate 176 0 ++ [3]).drop 94) = Except.ok [] ∧
      177 ≤ (List.replicate 176 0 ++ [3]).length ∧
      (List.replicate 176 0 ++ [3]).getD 176 0 &&& 3 = 3 ∧
      parseMessage (List.replicate 176 0 ++ [3]) = Except.error Err.fatal :=
  ⟨rfl, by decide, by decide,
    C1_parseMessage_amended (List.replicate 176 0 ++ [3]) [] rfl (by decide) (by decide)⟩

theorem parseMessageTail_truncated (peer : List Nat) (msg : deliverMessage)
    (pdu : List Nat) (h0 : 0 < pdu.length) (h72 : pdu.length < 72) :
    parseMessageTail peer msg pdu = Except.error Err.truncated := by
  unfold parseMessageTail
  rw [if_neg (by omega), if_pos (by omega)]

theorem parseMessageTail_ok (peer : List Nat) (msg : deliverMessage)
    (pdu : List Nat) (h72 : 72 ≤ pdu.length)
    (hfit : 2 * ((pdu.drop 65).getD 5 0 / 2) ≤ ((pdu.drop 65).drop 6).length) :
    parseMessageTail peer msg pdu =
      Except.ok { Peer := peer
                  Text := (List.range ((pdu.drop 65).getD 5 0 / 2)).map
                    (fun i => (((pdu.drop 65).drop 6).getD (2 * i) 0 <<< 8) |||
                      ((pdu.drop 65).drop 6).getD (2 * i + 1) 0)
                  Msg := msg } := by
  unfold parseMessageTail
  rw [if_neg (by omega), if_neg (by omega), if_pos hfit]

/-- C8: handling of the bytes remaining after the TPDU in `parseMessage`.
When the remainder is non-empty but shorter than 72 bytes the result is the
returned error `Err.truncated`, never an out-of-bounds access; with at
least 72 remaining bytes (and a text block that fits) the parser skips 65
bytes, reads the 1-byte length field at offset 5 of the remainder, skips 6
bytes in total and decodes `length / 2` big-endian UCS-2 code units as
`Text`.  Stated both for the TPDU types that consume nothing (1 and 2) and
for a successfully parsed SMS-DELIVER TPDU consuming `n` bytes. -/
theorem C8_message_tail :
    (∀ s us : List Nat, scanUCS2core (s.drop 94) = Except.ok us →
      177 ≤ s.length →
      (s.getD 176 0 &&& 3 = 1 ∨ s.getD 176 0 &&& 3 = 2) →
      (s.drop 176).length < 72 →
      parseMessage s = Except.error Err.truncated) ∧
    (∀ s us : List Nat, scanUCS2core (s.drop 94) = Except.ok us →
      177 ≤ s.length →
      (s.getD 176 0 &&& 3 = 1 ∨ s.getD 176 0 &&& 3 = 2) →
      72 ≤ (s.drop 176).length →
      2 * (((s.drop 176).drop 65).getD 5 0 / 2) ≤
        (((s.drop 176).drop 65).drop 6).length →
      parseMessage s =
        Except.ok { Peer := utf16Decode us
                    Text := (List.range (((s.drop 176).drop 65).getD 5 0 / 2)).map
                      (fun i => ((((s.drop 176).drop 65).drop 6).getD (2 * i) 0 <<< 8) |||
                        (((s.drop 176).drop 65).drop 6).getD (2 * i + 1) 0)
                    Msg := {} }) ∧
    (∀ (s us : List Nat) (m : deliverMessage) (n : Nat),
      scanUCS2core (s.drop 94) = Except.ok us →
      177 ≤ s.length → s.getD 176 0 &&& 3 = 0 →
      parseDeliverMessage (s.drop 176) = Except.ok (m, n) →
      n ≤ (s.drop 176).length →
      0 < ((s.drop 176).drop n).length → ((s.drop 176).drop n).length < 72 →
      parseMessage s = Except.error Err.truncated) ∧
    (∀ (s us : List Nat) (m : deliverMessage) (n : Nat),
      scanUCS2core (s.drop 94) = Except.ok us →
      177 ≤ s.length → s.getD 176 0 &&& 3 = 0 →
      parseDeliverMessage (s.drop 176) = Except.ok (m, n) →
      n ≤ (s.drop 176).length →
      72 ≤ ((s.drop 176).drop n).length →
      2 * ((((s.drop 176).drop n).drop 65).getD 5 0 / 2) ≤
        ((((s.drop 176).drop n).drop 65).drop 6).length →
      parseMessage s =
        Except.ok { Peer := utf16Decode us
                    Text := (List.range ((((s.drop 176).drop n).drop 65).getD 5 0 / 2)).map
                      (fun i =>
                        (((((s.drop 176).drop n).drop 65).drop 6).getD (2 * i) 0 <<< 8) |||
                          ((((s.drop 176).drop n).drop 65).drop 6).getD (2 * i + 1) 0)
                    Msg := m }) := by
  have hgty : ∀ s : List Nat, (List.drop 176 s).getD 0 0 = s.getD 176 0 := by
    intro s
    simp [List.getD_eq_getElem?_getD, List.getElem?_drop]
  refine ⟨?_, ?_, ?_, ?_⟩
  · intro s us hscan hlen hty htr
    have hA : (176 : Nat) ≤ s.length := by omega
    have hB : 1 ≤ (List.drop 176 s).length := by rw [List.length_drop]; omega
    simp only [parseMessage, hscan]
    rw [if_pos hA, if_pos hB, hgty s]
    rcases hty with hty | hty
    · rw [hty]
      exact parseMessageTail_truncated _ _ _ (by omega) htr
    · rw [hty]
      exact parseMessageTail_truncated _ _ _ (by omega) htr
  · intro s us hscan hlen hty h72 hfit
    have hA : (176 : Nat) ≤ s.length := by omega
    have hB : 1 ≤ (List.drop 176 s).length := by rw [List.length_drop]; omega
    simp only [parseMessage, hscan]
    rw [if_pos hA, if_pos hB, hgty s]
    rcases hty with hty | hty
    · rw [hty]
      exact parseMessageTail_ok _ _ _ h72 hfit
    · rw [hty]
      exact parseMessageTail_ok _ _ _ h72 hfit
  · intro s us m n hscan hlen hty hpd hn h0 h72
    have hA : (176 : Nat) ≤ s.length := by omega
    have hB : 1 ≤ (List.drop 176 s).length := by rw [List.length_drop]; omega
    have hgty0 : (List.drop 176 s).getD 0 0 &&& 3 = 0 := by rw [hgty s]; exact hty
    simp only [parseMessage, hscan, hgty0, hpd, hn, hA, hB, if_true, ite_true]
    exact parseMessageTail_truncated _ _ _ h0 h72
  · intro s us m n hscan hlen hty hpd hn h72 hfit
    have hA : (176 : Nat) ≤ s.length := by omega
    have hB : 1 ≤ (List.drop 176 s).length := by rw [List.length_drop]; omega
    have hgty0 : (List.drop 176 s).getD 0 0 &&& 3 = 0 := by rw [hgty s]; exact hty
    simp only [parseMessage, hscan, hgty0, hpd, hn, hA, hB, if_true, ite_true]
    exact parseMessageTail_ok _ _ _ h72 hfit

theorem C8_witness :
    parseMessage (List.replicate 176 0 ++ [1]) = Except.error Err.truncated ∧
      parseMessage (List.replicate 176 0 ++ [1] ++ List.replicate 71 0) =
        Except.ok { Peer := [], Text := [], Msg := {} } ∧
      parseMessage (List.replicate 189 0 ++ [9]) = Except.error Err.truncated ∧
      parseMessage (List.replicate 189 0 ++ [9] ++ List.replicate 71 0) =
        Except.ok { Peer := []
                    Text := []
                    Msg := { MoreMsg := true, SMSCStamp := { year := 2000 } } } := by
  have hpd1 : parseDeliverMessage ((List.replicate 189 (0 : Nat) ++ [9]).drop 176) =
      Except.ok ({ MoreMsg := true, SMSCStamp := { year := 2000 } }, 13) := by rfl
  have hpd2 : parseDeliverMessage
      ((List.replicate 189 (0 : Nat) ++ [9] ++ List.replicate 71 0).drop 176) =
      Except.ok ({ MoreMsg := true, SMSCStamp := { year := 2000 } }, 13) := by rfl
  refine ⟨?_, ?_, ?_, ?_⟩
  · exact C8_message_tail.1 (List.replicate 176 0 ++ [1]) [] rfl (by decide)
      (Or.inl (by decide)) (by decide)
  · exact C8_message_tail.2.1 (List.replicate 176 0 ++ [1] ++ List.replicate 71 0) []
      rfl (by decide) (Or.inl (by decide)) (by decide) (by decide)
  · exact C8_message_tail.2.2.1 (List.replicate 189 0 ++ [9]) []
      { MoreMsg := true, SMSCStamp := { year := 2000 } } 13 rfl (by decide) (by decide)
      hpd1 (by decide) (by decide) (by decide)
  · exact C8_message_tail.2.2.2 (List.replicate 189 0 ++ [9] ++ List.replicate 71 0) []
      { MoreMsg := true, SMSCStamp := { year := 2000 } } 13 rfl (by decide) (by decide)
      hpd2 (by decide) (by decide) (by decide)

end GoMisc
